import Mathlib

/-!
# Delivery receipt composer (`internal/pdf`)

A shallow embedding of `delivery.go` and `pdf.go`.

* A Go string is its sequence of bytes (`GoString`); a byte is a natural number.
  String literals of the source are written `go "..."`, their UTF-8 encoding.
* Prices are `float64` values (`F64`): IEEE 754 binary64 with round to nearest, ties to
  even. Widths and coordinates are rational numbers.
* The standard-library routines the source calls (`strings.Split`, `strings.TrimSpace`,
  `strings.Fields`) are embedded from their Go definitions; `fmt.Sscanf`, `fmt.Sprintf`
  and the drawing backend are parameters.
-/

namespace Morse

/-! ## Go strings -/

/-- A Go string: a sequence of bytes. -/
abbrev GoString := List Nat

/-- UTF-8 encoding of one code point. -/
def utf8Char (c : Char) : GoString :=
  let n := c.toNat
  if n < 0x80 then [n]
  else if n < 0x800 then [0xC0 + n / 64, 0x80 + n % 64]
  else if n < 0x10000 then [0xE0 + n / 4096, 0x80 + n / 64 % 64, 0x80 + n % 64]
  else [0xF0 + n / 262144, 0x80 + n / 4096 % 64, 0x80 + n / 64 % 64, 0x80 + n % 64]

/-- The Go string written by a source literal. -/
def go (s : String) : GoString := s.toList.flatMap utf8Char

/-- The value `utf8.RuneError`. -/
def RuneError : Nat := 0xFFFD

/-- Size in bytes of the encoding announced by a leading byte in `0xC2..0xF4` (the low bits
of Go's `first` table). -/
def runeSize (s0 : Nat) : Nat := if s0 < 0xE0 then 2 else if s0 < 0xF0 then 3 else 4

/-- Lowest second byte accepted after the leading byte `s0` (Go's `acceptRanges`). -/
def acceptLo (s0 : Nat) : Nat := if s0 = 0xE0 then 0xA0 else if s0 = 0xF0 then 0x90 else 0x80

/-- Highest second byte accepted after the leading byte `s0` (Go's `acceptRanges`). -/
def acceptHi (s0 : Nat) : Nat := if s0 = 0xED then 0x9F else if s0 = 0xF4 then 0x8F else 0xBF

/-- Go `utf8.DecodeRuneInString`: the first rune of `s` and its width in bytes; an invalid
encoding decodes to `(RuneError, 1)`, the empty string to `(RuneError, 0)`. -/
def DecodeRune : GoString → Nat × Nat
  | [] => (RuneError, 0)
  | s0 :: t =>
    if s0 < 0x80 then (s0, 1)
    else if s0 < 0xC2 ∨ 0xF4 < s0 then (RuneError, 1)
    else if t.length + 1 < runeSize s0 then (RuneError, 1)
    else if t.getD 0 0 < acceptLo s0 ∨ acceptHi s0 < t.getD 0 0 then (RuneError, 1)
    else if runeSize s0 ≤ 2 then ((s0 % 32) * 64 + t.getD 0 0 % 64, 2)
    else if t.getD 1 0 < 0x80 ∨ 0xBF < t.getD 1 0 then (RuneError, 1)
    else if runeSize s0 ≤ 3 then
      ((s0 % 16) * 4096 + (t.getD 0 0 % 64) * 64 + t.getD 1 0 % 64, 3)
    else if t.getD 2 0 < 0x80 ∨ 0xBF < t.getD 2 0 then (RuneError, 1)
    else
      ((s0 % 8) * 262144 + (t.getD 0 0 % 64) * 4096 + (t.getD 1 0 % 64) * 64
        + t.getD 2 0 % 64, 4)

/-- Go `utf8.RuneStart`: the byte is not a continuation byte. -/
def RuneStart (b : Nat) : Bool := decide (b < 0x80 ∨ 0xBF < b)

/-- The backward scan of `utf8.DecodeLastRuneInString`: from `start`, step back while
`start ≥ lim` and the byte at `start` is a continuation byte. -/
def lastRuneScan (s : GoString) (lim : Int) : Nat → Int → Int
  | 0, start => start
  | k + 1, start =>
    if lim ≤ start then
      if RuneStart (s.getD start.toNat 0) then start else lastRuneScan s lim k (start - 1)
    else start

/-- Go `utf8.DecodeLastRuneInString`: the last rune of `s` and its width in bytes. -/
def DecodeLastRune (s : GoString) : Nat × Nat :=
  if s.length = 0 then (RuneError, 0)
  else
    let r := s.getD (s.length - 1) 0
    if r < 0x80 then (r, 1)
    else
      let lim : Int := max ((s.length : Int) - 4) 0
      let start := max (lastRuneScan s lim 4 ((s.length : Int) - 2)) 0
      let d := DecodeRune (s.drop start.toNat)
      if start.toNat + d.2 ≠ s.length then (RuneError, 1) else d

/-- Go `unicode.IsSpace`. -/
def IsSpace (r : Nat) : Bool :=
  decide ((0x09 ≤ r ∧ r ≤ 0x0D) ∨ r = 0x20 ∨ r = 0x85 ∨ r = 0xA0 ∨ r = 0x1680
    ∨ (0x2000 ≤ r ∧ r ≤ 0x200A) ∨ r = 0x2028 ∨ r = 0x2029 ∨ r = 0x202F ∨ r = 0x205F
    ∨ r = 0x3000)

/-- Go `strings.TrimLeftFunc(s, unicode.IsSpace)`: drop leading white-space runes. The first
argument bounds the number of runes examined. -/
def trimLeftSpace : Nat → GoString → GoString
  | 0, s => s
  | n + 1, s =>
    match s with
    | [] => []
    | _ :: _ =>
      let d := DecodeRune s
      if IsSpace d.1 then trimLeftSpace n (s.drop d.2) else s

/-- The search of `strings.lastIndexFunc(s, unicode.IsSpace, false)`, returning the index
just past the last non-space rune as `strings.TrimRightFunc` computes it (`0` when every
rune is white space). The first argument bounds the number of runes examined; `i` is the
length of the part of `s` still to be examined. -/
def trimRightEnd (s : GoString) : Nat → Nat → Nat
  | 0, _ => 0
  | n + 1, i =>
    if i = 0 then 0
    else
      let d := DecodeLastRune (s.take i)
      let j := i - d.2
      if IsSpace d.1 then trimRightEnd s n j
      else if 0x80 ≤ s.getD j 0 then j + (DecodeRune (s.drop j)).2 else j + 1

/-- Go `strings.TrimSpace`: `s` without its leading and trailing white space. -/
def TrimSpace (s : GoString) : GoString :=
  let t := trimLeftSpace s.length s
  t.take (trimRightEnd t t.length t.length)

/-- The rune loop of `strings.FieldsFunc(s, unicode.IsSpace)`: `cur` is the field being
accumulated (empty when no field is open). The first argument bounds the number of runes
examined. -/
def fieldsLoop : Nat → GoString → GoString → List GoString
  | 0, _, cur => if cur = [] then [] else [cur]
  | n + 1, s, cur =>
    match s with
    | [] => if cur = [] then [] else [cur]
    | _ :: _ =>
      let d := DecodeRune s
      if IsSpace d.1 then
        (if cur = [] then [] else [cur]) ++ fieldsLoop n (s.drop d.2) []
      else fieldsLoop n (s.drop d.2) (cur ++ s.take d.2)

/-- Go `strings.Fields`: the maximal runs of non-white-space runes of `s`, in order. -/
def Fields (s : GoString) : List GoString := fieldsLoop s.length s []

/-- Go `strings.Split(s, sep)` for a one-byte separator `sep`: the pieces of `s` between
consecutive occurrences of `sep` (one more piece than there are occurrences). -/
def Split : GoString → Nat → List GoString
  | [], _ => [[]]
  | b :: rest, sep =>
    if b = sep then [] :: Split rest sep
    else
      match Split rest sep with
      | [] => [[b]]
      | f :: fs => (b :: f) :: fs

/-! ## `delivery.go` -/

/-- A single delivery entry with customer information and items. -/
structure DeliveryEntry where
  ID : GoString
  Name : GoString
  Address : GoString
  Phone : GoString
  Items : GoString
  Notes : GoString
  deriving DecidableEq, Repr

/-- The inner loop of `ParseContent` over `fields[:5]`: `allEmpty` stays true unless some
field is non-empty after trimming. -/
def allEmpty : List GoString → Bool
  | [] => true
  | field :: rest => if TrimSpace field ≠ [] then false else allEmpty rest

/-- The body of the `for _, line := range lines` loop of `ParseContent`. -/
def parseLine (entries : List DeliveryEntry) (line : GoString) : List DeliveryEntry :=
  if line = [] then entries
  else
    let fields := Split line 0x09
    if 5 ≤ fields.length then
      if allEmpty (fields.take 5) then entries
      else
        let entry : DeliveryEntry :=
          { ID := fields.getD 0 [], Name := fields.getD 1 [], Address := fields.getD 2 [],
            Phone := fields.getD 3 [], Items := fields.getD 4 [], Notes := [] }
        let entry := if 5 < fields.length then { entry with Notes := fields.getD 5 [] } else entry
        entries ++ [entry]
    else entries

/-- Source `ParseContent`: parses a tab-separated string into a list of `DeliveryEntry`. -/
def ParseContent (content : GoString) : List DeliveryEntry :=
  (Split content 0x0A).foldl parseLine []

/-- Specification side of `ParseContent`: a line is retained when it splits on the tab
character into at least 5 fields of which one of the first 5 is non-blank after trimming. -/
def retainedLine (line : GoString) : Bool :=
  decide (5 ≤ (Split line 0x09).length) &&
    ((Split line 0x09).take 5).any (fun f => decide (TrimSpace f ≠ []))

/-- Specification side of `ParseContent`: the record of a retained line maps fields 0 to 4
to ID, Name, Address, Phone, Items, and field 5 to Notes when present (empty otherwise). -/
def recordOfLine (line : GoString) : DeliveryEntry :=
  { ID := (Split line 0x09).getD 0 [], Name := (Split line 0x09).getD 1 [],
    Address := (Split line 0x09).getD 2 [], Phone := (Split line 0x09).getD 3 [],
    Items := (Split line 0x09).getD 4 [],
    Notes := match (Split line 0x09)[5]? with
      | some notes => notes
      | none => [] }

/-! ## `pdf.go`: text wrapping -/

/-- The inner `for i := 0; i < len(remainingWord); i++` loop of `wrapText`: the first `i`
with `measure(remainingWord[:i+1]) > maxWidth`, and `len(remainingWord)` when there is
none. -/
def splitPoint (measure : GoString → ℚ) (maxWidth : ℚ) (remainingWord : GoString) : Nat :=
  ((List.range remainingWord.length).find?
    (fun i => decide (measure (remainingWord.take (i + 1)) > maxWidth))).getD
      remainingWord.length

/-- The `for len(remainingWord) > 0` loop of `wrapText`, which appends chunks of the word
to `lines`. The first argument bounds the number of iterations: `none` means that the
loop is still running after that many. -/
def hardSplit (measure : GoString → ℚ) (maxWidth : ℚ) :
    Nat → GoString → List GoString → Option (List GoString)
  | 0, remainingWord, lines => if 0 < remainingWord.length then none else some lines
  | fuel + 1, remainingWord, lines =>
    if 0 < remainingWord.length then
      let sp := splitPoint measure maxWidth remainingWord
      hardSplit measure maxWidth fuel (remainingWord.drop sp) (lines ++ [remainingWord.take sp])
    else some lines

/-- The `for _, word := range words` loop of `wrapText` followed by the final flush, on
the state `lines`, `currentLine`. -/
def wrapLoop (fuel : Nat) (measure : GoString → ℚ) (maxWidth : ℚ) :
    List GoString → List GoString → GoString → Option (List GoString)
  | [], lines, currentLine =>
    some (if currentLine ≠ [] then lines ++ [currentLine] else lines)
  | word :: rest, lines, currentLine =>
    let testLine := (if currentLine ≠ [] then currentLine ++ [0x20] else currentLine) ++ word
    if measure testLine > maxWidth then
      if currentLine ≠ [] then
        wrapLoop fuel measure maxWidth rest (lines ++ [currentLine]) word
      else
        match hardSplit measure maxWidth fuel word lines with
        | none => none
        | some lines => wrapLoop fuel measure maxWidth rest lines []
    else wrapLoop fuel measure maxWidth rest lines testLine

/-- Source `wrapText`; `measure` is `pdf.MeasureTextWidth` under the font active at the
call. `fuel` bounds the iterations of each hard-split loop: the call returns `lines`
exactly when `wrapText fuel measure text maxWidth = some lines` for some `fuel`. -/
def wrapText (fuel : Nat) (measure : GoString → ℚ) (text : GoString) (maxWidth : ℚ) :
    Option (List GoString) :=
  wrapLoop fuel measure maxWidth (Fields text) [] []

/-- The single-space join of a run of words. -/
def joinWords (ws : List GoString) : GoString := List.intercalate [0x20] ws

/-- Deleting the space bytes of a string. -/
def dropSpaces (s : GoString) : GoString := s.filter (fun b => decide (b ≠ 0x20))

/-- The width of a string in a fixed-pitch font of unit advance: its length in bytes. -/
def byteWidth (s : GoString) : ℚ := s.length

/-- A measure under which a word can be wider than the whole text: strings of two bytes are
9 wide, all others 1 wide. -/
def unevenWidth (s : GoString) : ℚ := if s.length = 2 then 9 else 1

/-! ## `float64` -/

/-- A `float64` value: a finite number (the rational it denotes, the two zeros taken as
one), an infinity, or NaN. -/
inductive F64 where
  | fin (q : ℚ)
  | inf (negative : Bool)
  | nan
  deriving DecidableEq, Repr

/-- The power `2 ^ k` for an integer exponent. -/
def pow2 (k : Int) : ℚ := if 0 ≤ k then (2 : ℚ) ^ k.toNat else 1 / (2 : ℚ) ^ (-k).toNat

/-- Floor of the binary logarithm of a positive natural number, computed by halving; the
first argument bounds the number of halvings. -/
def log2Floor : Nat → Nat → Nat
  | 0, _ => 0
  | fuel + 1, n => if n < 2 then 0 else log2Floor fuel (n / 2) + 1

/-- Floor of the binary logarithm of a positive rational number. -/
def floorLog2 (q : ℚ) : Int :=
  let e0 : Int := (log2Floor q.num.natAbs q.num.natAbs : Int) - (log2Floor q.den q.den : Int)
  if pow2 e0 ≤ q then e0 else e0 - 1

/-- The integer nearest to a non-negative rational number, ties going to the even one. -/
def roundHalfEven (q : ℚ) : Nat :=
  let fl := q.floor.toNat
  let r := q - (fl : ℚ)
  if r < 1 / 2 then fl else if 1 / 2 < r then fl + 1 else if fl % 2 = 0 then fl else fl + 1

/-- IEEE 754 binary64 rounding of a real result (round to nearest, ties to even): 53
significant bits, least exponent -1022 with gradual underflow, overflow to infinity. -/
def F64.round (q : ℚ) : F64 :=
  if q = 0 then F64.fin 0
  else
    let a := if q < 0 then -q else q
    let e := max (floorLog2 a) (-1022)
    let ulp := pow2 (e - 52)
    let r := (roundHalfEven (a / ulp) : ℚ) * ulp
    if pow2 1024 ≤ r then F64.inf (decide (q < 0))
    else F64.fin (if q < 0 then -r else r)

/-- The `float64` sum `x + y`; adding a zero returns the other operand unchanged. -/
def F64.add : F64 → F64 → F64
  | F64.fin a, F64.fin b =>
    if b = 0 then F64.fin a else if a = 0 then F64.fin b else F64.round (a + b)
  | F64.fin _, F64.inf s => F64.inf s
  | F64.inf s, F64.fin _ => F64.inf s
  | F64.inf s, F64.inf t => if s = t then F64.inf s else F64.nan
  | F64.nan, _ => F64.nan
  | _, F64.nan => F64.nan

/-- The `float64` product `x * y`. -/
def F64.mul : F64 → F64 → F64
  | F64.fin a, F64.fin b => F64.round (a * b)
  | F64.fin a, F64.inf s => if a = 0 then F64.nan else F64.inf (xor s (decide (a < 0)))
  | F64.inf s, F64.fin b => if b = 0 then F64.nan else F64.inf (xor s (decide (b < 0)))
  | F64.inf s, F64.inf t => F64.inf (xor s t)
  | F64.nan, _ => F64.nan
  | _, F64.nan => F64.nan

/-- The `float64` quotient `x / y` (a zero divisor is taken as `+0`). -/
def F64.div : F64 → F64 → F64
  | F64.fin a, F64.fin b =>
    if b = 0 then (if a = 0 then F64.nan else F64.inf (decide (a < 0)))
    else F64.round (a / b)
  | F64.fin _, F64.inf _ => F64.fin 0
  | F64.inf s, F64.fin b => F64.inf (xor s (decide (b < 0)))
  | F64.inf _, F64.inf _ => F64.nan
  | F64.nan, _ => F64.nan
  | _, F64.nan => F64.nan

/-- The `float64` comparison `x == 0`. -/
def F64.isZero : F64 → Bool
  | F64.fin q => decide (q = 0)
  | _ => false

/-! ## `delivery.go`: pricing -/

/-- Source `parseFloat`: parses a string and converts to Ariary. `scanf s` stands for
`fmt.Sscanf(s, "%f", &f)`: the value left in `f` and whether `err == nil`. -/
def parseFloat (scanf : GoString → F64 × Bool) (s : GoString) : F64 × Bool :=
  (F64.mul (scanf s).1 (F64.fin 1000), (scanf s).2)

/-- The body of the `for _, item := range items` loop of `CalculateTotal`. -/
def addItem (scanf : GoString → F64 × Bool) (total : F64) (item : GoString) : F64 :=
  let price := TrimSpace item
  if (parseFloat scanf price).2 then F64.add total (parseFloat scanf price).1 else total

/-- Source `(*DeliveryEntry).CalculateTotal`: the total price of all items of the entry. -/
def CalculateTotal (scanf : GoString → F64 × Bool) (e : DeliveryEntry) : F64 :=
  (Split e.Items 0x2B).foldl (addItem scanf) (F64.fin 0)

/-- Source `FormatNumber`; `sprintf0 n` stands for `fmt.Sprintf("%.0f", n)`. -/
def FormatNumber (sprintf0 : F64 → GoString) (n : F64) : GoString := sprintf0 n

/-- Specification side of `CalculateTotal`: the contribution of one token, the `float64`
product of its value and 1000 when the trimmed token parses and 0 when it does not. -/
def tokenContribution (scanf : GoString → F64 × Bool) (token : GoString) : F64 :=
  if (scanf (TrimSpace token)).2 then F64.mul (scanf (TrimSpace token)).1 (F64.fin 1000)
  else F64.fin 0

/-- Value of a run of decimal digits read as a natural number. -/
def digitsValue (ds : GoString) : Nat := ds.foldl (fun acc d => 10 * acc + (d - 0x30)) 0

/-- Whether a byte is a decimal digit. -/
def isDigit (b : Nat) : Bool := decide (0x30 ≤ b ∧ b ≤ 0x39)

/-- A scanner for plain decimal literals, used to evaluate examples: an optional sign,
digits and an optional fraction, of which at least one digit; the value is the `float64`
nearest to the literal. It agrees with `fmt.Sscanf(s, "%f", &f)` on the strings that are
such a literal, and on strings that begin with no digit, sign or period nor with a letter
of `NaN` or `Inf`, such as `"abc"`, on which both fail. -/
def scanDecimal (s : GoString) : F64 × Bool :=
  let neg := decide (s.head? = some 0x2D)
  let body := if s.head? = some 0x2D ∨ s.head? = some 0x2B then s.drop 1 else s
  let whole := body.takeWhile isDigit
  let rest := body.dropWhile isDigit
  let frac := if rest.head? = some 0x2E then (rest.drop 1).takeWhile isDigit else []
  if whole = [] ∧ frac = [] then (F64.fin 0, false)
  else
    let v : ℚ := (digitsValue whole : ℚ) + (digitsValue frac : ℚ) / (10 : ℚ) ^ frac.length
    (F64.round (if neg then -v else v), true)

/-! ## `pdf.go`: document composer -/

/-- Source `PDFConfig`: the layout constants. -/
structure PDFConfig where
  PageWidth : ℚ
  MarginLeft : ℚ
  MarginRight : ℚ
  MarginTop : ℚ
  MarginBottom : ℚ
  LineHeight : ℚ
  SectionSpacing : ℚ
  ItemSpacing : ℚ
  NoteBoxHeight : ℚ
  NameSpacing : ℚ
  EntrySpacing : ℚ
  ItemWidth : ℚ
  DateSpacing : ℚ
  PhoneSpacing : ℚ
  ZoneSpacing : ℚ
  AddressSpacing : ℚ

/-- Source `DefaultConfig`. -/
def DefaultConfig : PDFConfig :=
  { PageWidth := 78.0, MarginLeft := 4.0, MarginRight := 4.0, MarginTop := 4.0,
    MarginBottom := 2.0, LineHeight := 2.0, SectionSpacing := 2.0, ItemSpacing := 2.5,
    NoteBoxHeight := 8.0, NameSpacing := 2.0, EntrySpacing := 4.0, ItemWidth := 25.0,
    DateSpacing := 3.0, PhoneSpacing := 2.0, ZoneSpacing := 3.0, AddressSpacing := 1.0 }

/-- A font selection of the drawing backend: family, style and size. -/
structure Font where
  family : GoString
  style : GoString
  size : Nat
  deriving DecidableEq, Repr

/-- A call made on the drawing backend (`gopdf.GoPdf`). -/
inductive Call where
  | Start (w h : ℚ)
  | AddPage
  | Image (path : GoString) (x y w h : ℚ)
  | SetFont (family style : GoString) (size : Nat)
  | SetX (x : ℚ)
  | SetY (y : ℚ)
  | Cell (text : GoString)
  | SetLineWidth (w : ℚ)
  | SetLineType (t : GoString)
  | Line (x1 y1 x2 y2 : ℚ)
  deriving DecidableEq, Repr

/-- What `GeneratePDF` obtains from outside the package: the number scanner and formatter
of `fmt`, the text measurement of the backend (which depends on the font selected at the
time of the call), whether `assets/logo.png` exists, and the formatted current date. -/
structure Env where
  Sscanf : GoString → F64 × Bool
  Sprintf0 : F64 → GoString
  MeasureTextWidth : Font → GoString → ℚ
  logoExists : Bool
  today : GoString

/-- The state of the drawing pass of `GeneratePDF`: the font selected on the backend, the
calls made on it so far, in order, and the local variable `currentY`. -/
structure Doc where
  font : Font
  calls : List Call
  currentY : ℚ

/-- Record one call on the backend. -/
def Doc.call (d : Doc) (c : Call) : Doc := { d with calls := d.calls ++ [c] }

/-- Backend `SetFont`: selects the font and records the call. The call is taken to succeed:
a call that the backend rejects, whose error the source drops, would leave the earlier
font selected. -/
def Doc.SetFont (d : Doc) (family style : GoString) (size : Nat) : Doc :=
  { d with font := { family := family, style := style, size := size },
           calls := d.calls ++ [Call.SetFont family style size] }

/-- Backend `SetX`. -/
def Doc.SetX (d : Doc) (x : ℚ) : Doc := d.call (Call.SetX x)

/-- Backend `SetY`. -/
def Doc.SetY (d : Doc) (y : ℚ) : Doc := d.call (Call.SetY y)

/-- Backend `Cell(nil, text)`: draws `text` at the current position. -/
def Doc.Cell (d : Doc) (text : GoString) : Doc := d.call (Call.Cell text)

/-- The statement `currentY += dy`. -/
def Doc.advance (d : Doc) (dy : ℚ) : Doc := { d with currentY := d.currentY + dy }

/-- Body of the loop over `zoneLines` (`pdf.go` lines 101-106). -/
def drawZoneLine (config : PDFConfig) (d : Doc) (line : GoString) : Doc :=
  ((((d.SetX (config.MarginLeft + 2)).SetY d.currentY).Cell line).advance
    (config.LineHeight + 1.0))

/-- Body of the loop over `addressLines` (`pdf.go` lines 140-150): the marker is drawn when
the line equals `addressLines[0]`. -/
def drawAddressLine (config : PDFConfig) (addressLines : List GoString) (d : Doc)
    (line : GoString) : Doc :=
  let d := (d.SetX (config.MarginLeft + 6)).SetY d.currentY
  let d :=
    if line = addressLines.getD 0 [] then
      ((d.SetX config.MarginLeft).Cell (go ">")).SetX (config.MarginLeft + 4)
    else d
  (d.Cell line).advance (config.LineHeight + 0.5)

/-- Body of the loop over `noteLines` (`pdf.go` lines 202-207). -/
def drawNoteLine (config : PDFConfig) (d : Doc) (line : GoString) : Doc :=
  ((((d.SetX (config.MarginLeft + 12)).SetY d.currentY).Cell line).advance
    (config.LineHeight + 0.5))

/-- The text of an item cell (`pdf.go` lines 179-183) for the converted price `p`. -/
def itemLabel (env : Env) (p : F64) : GoString :=
  if p.isZero then go "• Kadoa"
  else go "• " ++ FormatNumber env.Sprintf0 (F64.div p (F64.fin 1000)) ++ go "k"

/-- Body of the inner loop over `j` of the item grid (`pdf.go` lines 174-184) for the
token `items[i+j]`: the token is drawn in column `j` when it parses. -/
def drawItem (env : Env) (config : PDFConfig) (d : Doc) (j : Nat) (item : GoString) : Doc :=
  let price := TrimSpace item
  if (parseFloat env.Sscanf price).2 then
    (((d.SetX (config.MarginLeft + config.ItemWidth * (j : ℚ))).SetY d.currentY).Cell
      (itemLabel env (parseFloat env.Sscanf price).1))
  else d

/-- One pass of the outer loop of the item grid (`pdf.go` lines 172-187) over the at most
three tokens `items[i], items[i+1], items[i+2]`. -/
def drawItemRow (env : Env) (config : PDFConfig) (d : Doc) (row : List GoString) : Doc :=
  ((row.enum.foldl (fun d jt => drawItem env config d jt.1 jt.2) d).advance
    (config.LineHeight + config.ItemSpacing))

/-- The item grid (`pdf.go` lines 172-187): the tokens are taken three at a time. -/
def drawItemRows (env : Env) (config : PDFConfig) : List GoString → Doc → Doc
  | [], d => d
  | a :: b :: c :: rest, d => drawItemRows env config rest (drawItemRow env config d [a, b, c])
  | [a, b], d => drawItemRow env config d [a, b]
  | [a], d => drawItemRow env config d [a]

/-- The entry block up to the ID line (`pdf.go` lines 110-135). -/
def drawEntryHead (env : Env) (config : PDFConfig) (entry : DeliveryEntry) (d : Doc) : Doc :=
  let d := d.SetFont (go "bold") (go "") 9
  let total := CalculateTotal env.Sscanf entry
  let d := ((d.SetX config.MarginLeft).SetY d.currentY).Cell entry.Name
  let totalText := FormatNumber env.Sprintf0 total ++ go " Ar"
  let totalWidth := env.MeasureTextWidth d.font totalText
  let d := (d.SetX (config.PageWidth - config.MarginRight - totalWidth)).Cell totalText
  let d := d.advance (config.LineHeight + 2.0)
  let d := ((d.SetFont (go "regular") (go "") 7).SetX config.MarginLeft).SetY d.currentY
  let d := if entry.ID = [] then d.Cell (go "ID: -") else d.Cell (go "ID: " ++ entry.ID)
  d.advance (config.LineHeight + config.NameSpacing)

/-- The address block (`pdf.go` lines 137-151). -/
def drawAddress (env : Env) (config : PDFConfig) (fuel : Nat) (entry : DeliveryEntry)
    (d : Doc) : Option Doc :=
  let d := d.SetFont (go "regular") (go "") 8
  match wrapText fuel (env.MeasureTextWidth d.font) entry.Address
      (config.PageWidth - config.MarginLeft - config.MarginRight - 7) with
  | none => none
  | some addressLines =>
    some ((addressLines.foldl (drawAddressLine config addressLines) d).advance
      config.AddressSpacing)

/-- The phone line, the items label and the item grid (`pdf.go` lines 153-187). -/
def drawPhoneAndItems (env : Env) (config : PDFConfig) (entry : DeliveryEntry) (d : Doc) :
    Doc :=
  let d := (((d.SetX config.MarginLeft).SetY d.currentY).Cell (go "#")).SetX
    (config.MarginLeft + 4)
  let d := if entry.Phone = [] then d.Cell (go "Tsisy lty a! Tsisy") else d.Cell entry.Phone
  let d := d.advance (config.LineHeight + config.PhoneSpacing)
  let d := ((d.SetX config.MarginLeft).SetY d.currentY).Cell (go "Entam-be:")
  let d := d.advance (config.LineHeight + config.ItemSpacing)
  drawItemRows env config (Split entry.Items 0x2B) d

/-- The notes block (`pdf.go` lines 189-208), drawn only when `Notes` is not empty. -/
def drawNotes (env : Env) (config : PDFConfig) (fuel : Nat) (entry : DeliveryEntry)
    (d : Doc) : Option Doc :=
  if entry.Notes ≠ [] then
    let d := d.advance config.SectionSpacing
    let d := (((d.SetFont (go "bold") (go "") 8).SetX config.MarginLeft).SetY
      d.currentY).Cell (go "Notes:")
    let d := (d.SetX (config.MarginLeft + 12)).SetFont (go "regular") (go "") 8
    let notesWidth := config.PageWidth - config.MarginLeft - config.MarginRight - 12
    match wrapText fuel (env.MeasureTextWidth d.font) entry.Notes notesWidth with
    | none => none
    | some noteLines => some (noteLines.foldl (drawNoteLine config) d)
  else some d

/-- The deliverer's note box and the divider (`pdf.go` lines 210-233); `i` is the index of
the entry and `n` the number of entries. -/
def drawNoteBox (config : PDFConfig) (n i : Nat) (d : Doc) : Doc :=
  let d := d.advance config.SectionSpacing
  let d := (d.call (Call.SetLineWidth 0.1)).call (Call.SetLineType (go "dashed"))
  let noteBoxY := d.currentY
  let d := d.call (Call.Line config.MarginLeft noteBoxY
    (config.PageWidth - config.MarginRight) noteBoxY)
  let d := d.call (Call.Line config.MarginLeft (noteBoxY + config.NoteBoxHeight)
    (config.PageWidth - config.MarginRight) (noteBoxY + config.NoteBoxHeight))
  let d := d.call (Call.Line config.MarginLeft noteBoxY config.MarginLeft
    (noteBoxY + config.NoteBoxHeight))
  let d := d.call (Call.Line (config.PageWidth - config.MarginRight) noteBoxY
    (config.PageWidth - config.MarginRight) (noteBoxY + config.NoteBoxHeight))
  let d := (d.SetFont (go "regular") (go "") 6).SetFont (go "bold") (go "") 8
  let d := ((d.SetX (config.MarginLeft + 1)).SetY (noteBoxY + 2)).Cell (go "Watawata:")
  let d := d.advance config.NoteBoxHeight
  let d := d.call (Call.SetLineType (go "solid"))
  if (i : Int) < (n : Int) - 1 then
    let d := d.advance (config.EntrySpacing / 2)
    let d := d.call (Call.SetLineWidth 0.3)
    let d := d.call (Call.Line config.MarginLeft d.currentY
      (config.PageWidth - config.MarginRight) d.currentY)
    d.advance (config.EntrySpacing / 2)
  else d

/-- Body of the loop `for i, entry := range entries` (`pdf.go` lines 109-234). -/
def drawEntry (env : Env) (config : PDFConfig) (fuel : Nat) (n i : Nat)
    (entry : DeliveryEntry) (d : Doc) : Option Doc :=
  match drawAddress env config fuel entry (drawEntryHead env config entry d) with
  | none => none
  | some d =>
    match drawNotes env config fuel entry (drawPhoneAndItems env config entry d) with
    | none => none
    | some d => some (drawNoteBox config n i d)

/-- The loop `for i, entry := range entries`, from index `i` on; `n = len(entries)`. -/
def drawEntries (env : Env) (config : PDFConfig) (fuel : Nat) (n : Nat) :
    Nat → List DeliveryEntry → Doc → Option Doc
  | _, [], d => some d
  | i, entry :: rest, d =>
    match drawEntry env config fuel n i entry d with
    | none => none
    | some d => drawEntries env config fuel n (i + 1) rest d

/-- The closing lines: date, quote and slogan (`pdf.go` lines 236-261). -/
def drawFooter (env : Env) (config : PDFConfig) (d : Doc) : Doc :=
  let d := d.advance config.DateSpacing
  let d := d.SetFont (go "regular") (go "") 8
  let dateStr := env.today
  let dateWidth := env.MeasureTextWidth d.font dateStr
  let d := ((d.SetX ((config.PageWidth - dateWidth) / 2)).SetY d.currentY).Cell dateStr
  let d := d.advance (config.LineHeight + 2.0)
  let quote := go "\"Taloha sarotra nirahana, ankehitriny lasa livreur.🥲\""
  let quoteWidth := env.MeasureTextWidth d.font quote
  let d := d.SetFont (go "bold") (go "I") 10
  let d := ((d.SetX ((config.PageWidth - quoteWidth) / 2)).SetY d.currentY).Cell quote
  let d := d.advance (config.LineHeight + 2.0)
  let slogan := go "KIMBASÔ !"
  let sloganWidth := env.MeasureTextWidth d.font slogan
  let d := (d.SetFont (go "bold") (go "") 14).SetFont (go "regular") (go "") 11
  ((d.SetX ((config.PageWidth - sloganWidth) / 2)).SetY d.currentY).Cell slogan

/-- The result of the drawing pass: the page height passed to the backend, the calls made
on the backend, in order, and the final value of `currentY`. -/
structure Layout where
  totalHeight : ℚ
  calls : List Call
  currentY : ℚ

/-- Source `GeneratePDF`, the drawing pass (`pdf.go` lines 58-63 and 83-261) of a run in
which both fonts load; the font discovery before it and the file output after it make no
drawing call. `fuel` bounds the iterations of each hard-split loop of `wrapText`: the pass
completes with `layout` exactly when the result is `some layout` for some `fuel`. -/
def GeneratePDF (env : Env) (fuel : Nat) (zone : GoString) (entries : List DeliveryEntry)
    (config : PDFConfig) : Option Layout :=
  let totalHeight : ℚ := ((entries.length : ℚ) * 50) + 30
  let d : Doc :=
    { font := { family := [], style := [], size := 0 },
      calls := [Call.Start config.PageWidth totalHeight, Call.AddPage],
      currentY := config.MarginTop }
  let d :=
    if env.logoExists then
      (d.call (Call.Image (go "assets/logo.png") ((config.PageWidth - 20) / 2) d.currentY
        18 16)).advance 12
    else d
  let d := (((d.SetFont (go "regular") (go "") 10).SetX config.MarginLeft).SetY
    d.currentY).SetFont (go "bold") (go "") 12
  let availableWidth := config.PageWidth - config.MarginLeft - config.MarginRight - 4
  match wrapText fuel (env.MeasureTextWidth d.font) zone availableWidth with
  | none => none
  | some zoneLines =>
    let d := (zoneLines.foldl (drawZoneLine config) d).advance config.ZoneSpacing
    match drawEntries env config fuel entries.length 0 entries d with
    | none => none
    | some d =>
      let d := drawFooter env config d
      some { totalHeight := totalHeight, calls := d.calls, currentY := d.currentY }

/-- Specification side of the item grid: the calls that draw the token `item` in column `j`
of a row at height `y`; none when the token does not parse. With `p` the `float64` product
of the value of the token and 1000, the text is the gift marker when `p` is zero and
otherwise the bullet, the `float64` quotient of `p` and 1000 as a whole number, and `k`. -/
def itemCalls (env : Env) (config : PDFConfig) (j : Nat) (y : ℚ) (item : GoString) :
    List Call :=
  if (env.Sscanf (TrimSpace item)).2 then
    [Call.SetX (config.MarginLeft + config.ItemWidth * (j : ℚ)), Call.SetY y,
      Call.Cell
        (if (F64.mul (env.Sscanf (TrimSpace item)).1 (F64.fin 1000)).isZero then go "• Kadoa"
        else go "• " ++ env.Sprintf0
          (F64.div (F64.mul (env.Sscanf (TrimSpace item)).1 (F64.fin 1000)) (F64.fin 1000))
          ++ go "k")]
  else []

/-- Specification side of the item grid: token number `k` is drawn in column `k % 3` of row
`k / 3`, the rows being `LineHeight + ItemSpacing` apart from `y0` on. -/
def gridCalls (env : Env) (config : PDFConfig) (y0 : ℚ) (k : Nat) :
    List GoString → List Call
  | [] => []
  | item :: rest =>
    itemCalls env config (k % 3)
        (y0 + ((k / 3 : Nat) : ℚ) * (config.LineHeight + config.ItemSpacing)) item
      ++ gridCalls env config y0 (k + 1) rest

/-- Decimal digits of a natural number. -/
def natDigits (n : Nat) : GoString := (Nat.toDigits 10 n).map Char.toNat

/-- A formatter used to evaluate examples: the nearest whole number (ties to even) in
decimal digits, with a minus sign for a negative value, as `fmt.Sprintf("%.0f", n)` prints
it. -/
def formatWhole : F64 → GoString
  | F64.fin q =>
    (if q < 0 then go "-" else []) ++ natDigits (roundHalfEven (if q < 0 then -q else q))
  | F64.inf false => go "+Inf"
  | F64.inf true => go "-Inf"
  | F64.nan => go "NaN"

/-- An environment used to evaluate examples: decimal scanner and formatter, a fixed-pitch
font in which every byte is one unit wide, no logo. -/
def exampleEnv : Env :=
  { Sscanf := scanDecimal, Sprintf0 := formatWhole, MeasureTextWidth := fun _ s => byteWidth s,
    logoExists := false, today := go "01/11/2026" }

/-- An entry used to evaluate examples. -/
def exampleEntry : DeliveryEntry :=
  { ID := go "1", Name := go "A", Address := go "Addr", Phone := go "", Items := go "10+5",
    Notes := go "" }

/-- The font selected when the zone heading is wrapped. -/
def fontBold12 : Font := { family := go "bold", style := go "", size := 12 }

/-- The font selected when the address and the notes are wrapped. -/
def fontRegular8 : Font := { family := go "regular", style := go "", size := 8 }

/-- Number of lines of a wrapped text (0 when `wrapText` does not return). -/
def lineCount (lines : Option (List GoString)) : ℚ :=
  match lines with
  | some ls => (ls.length : ℚ)
  | none => 0

/-- Number of lines into which `GeneratePDF` wraps the zone heading. -/
def zoneLineCount (env : Env) (fuel : Nat) (config : PDFConfig) (zone : GoString) : ℚ :=
  lineCount (wrapText fuel (env.MeasureTextWidth fontBold12) zone
    (config.PageWidth - config.MarginLeft - config.MarginRight - 4))

/-- Number of lines into which `GeneratePDF` wraps the address of an entry. -/
def addressLineCount (env : Env) (fuel : Nat) (config : PDFConfig) (e : DeliveryEntry) : ℚ :=
  lineCount (wrapText fuel (env.MeasureTextWidth fontRegular8) e.Address
    (config.PageWidth - config.MarginLeft - config.MarginRight - 7))

/-- Number of lines into which `GeneratePDF` wraps the notes of an entry. -/
def noteLineCount (env : Env) (fuel : Nat) (config : PDFConfig) (e : DeliveryEntry) : ℚ :=
  lineCount (wrapText fuel (env.MeasureTextWidth fontRegular8) e.Notes
    (config.PageWidth - config.MarginLeft - config.MarginRight - 12))

/-- Number of rows of the item grid of an entry: three tokens per row. -/
def itemRowCount (e : DeliveryEntry) : ℚ := ((((Split e.Items 0x2B).length + 2) / 3 : Nat) : ℚ)

/-- The height by which entry number `i` of `n` advances the cursor. -/
def entryHeight (env : Env) (fuel : Nat) (config : PDFConfig) (n i : Nat)
    (e : DeliveryEntry) : ℚ :=
  (config.LineHeight + 2) + (config.LineHeight + config.NameSpacing)
    + addressLineCount env fuel config e * (config.LineHeight + 0.5) + config.AddressSpacing
    + (config.LineHeight + config.PhoneSpacing) + (config.LineHeight + config.ItemSpacing)
    + itemRowCount e * (config.LineHeight + config.ItemSpacing)
    + (if e.Notes ≠ [] then
        config.SectionSpacing + noteLineCount env fuel config e * (config.LineHeight + 0.5)
      else 0)
    + config.SectionSpacing + config.NoteBoxHeight
    + (if (i : Int) < (n : Int) - 1 then config.EntrySpacing / 2 + config.EntrySpacing / 2
      else 0)

/-- A word of 32 bytes, used to evaluate examples. -/
def longWord : GoString := List.replicate 32 0x41

/-- An address of two equal words that do not fit together on one line of width 63. -/
def repeatedAddress : GoString := longWord ++ [0x20] ++ longWord

/-- An Items field of 19 tokens, used to evaluate examples. -/
def manyItems : GoString := go "1+1+1+1+1+1+1+1+1+1+1+1+1+1+1+1+1+1+1"

/-- The font selected when the quote is drawn. -/
def fontBoldItalic10 : Font := { family := go "bold", style := go "I", size := 10 }

/-- The font selected when the slogan is drawn. -/
def fontRegular11 : Font := { family := go "regular", style := go "", size := 11 }

/-- The quote of the closing lines (`pdf.go` line 246). -/
def closingQuote : GoString := go "\"Taloha sarotra nirahana, ankehitriny lasa livreur.🥲\""

/-- The slogan of the closing lines (`pdf.go` line 255). -/
def closingSlogan : GoString := go "KIMBASÔ !"

/-- An environment used to evaluate examples, in which the width of a text grows with the
size of the selected font: each byte is one eighth of the font size wide. -/
def sizedEnv : Env :=
  { exampleEnv with MeasureTextWidth := fun f s => (f.size : ℚ) * (s.length : ℚ) / 8 }

/-- The Y positions at which the successive elements are drawn: a text at the Y set by the
last `SetY`, a line at the Y of its starting point, an image at its Y. -/
def elementYs : Option ℚ → List Call → List ℚ
  | _, [] => []
  | _, Call.SetY y :: rest => elementYs (some y) rest
  | cur, Call.Cell _ :: rest => cur.toList ++ elementYs cur rest
  | cur, Call.Line _ y1 _ _ :: rest => y1 :: elementYs cur rest
  | cur, Call.Image _ _ y _ _ :: rest => y :: elementYs cur rest
  | cur, _ :: rest => elementYs cur rest

/-- The line height and the spacing values of a config are non-negative. -/
def PDFConfig.NonNegative (config : PDFConfig) : Prop :=
  0 ≤ config.LineHeight ∧ 0 ≤ config.SectionSpacing ∧ 0 ≤ config.ItemSpacing
    ∧ 0 ≤ config.NameSpacing ∧ 0 ≤ config.EntrySpacing ∧ 0 ≤ config.DateSpacing
    ∧ 0 ≤ config.PhoneSpacing ∧ 0 ≤ config.ZoneSpacing ∧ 0 ≤ config.AddressSpacing

/-- No layout step of the drawing pass lowers the cursor: each loop body and each block of
`GeneratePDF` leaves `currentY` at or above the value it found. -/
def CursorForward (env : Env) (config : PDFConfig) (fuel : Nat) : Prop :=
  (∀ d line, d.currentY ≤ (drawZoneLine config d line).currentY)
    ∧ (∀ e d, d.currentY ≤ (drawEntryHead env config e d).currentY)
    ∧ (∀ al d line, d.currentY ≤ (drawAddressLine config al d line).currentY)
    ∧ (∀ e d out, drawAddress env config fuel e d = some out → d.currentY ≤ out.currentY)
    ∧ (∀ d row, d.currentY ≤ (drawItemRow env config d row).currentY)
    ∧ (∀ e d, d.currentY ≤ (drawPhoneAndItems env config e d).currentY)
    ∧ (∀ d line, d.currentY ≤ (drawNoteLine config d line).currentY)
    ∧ (∀ e d out, drawNotes env config fuel e d = some out → d.currentY ≤ out.currentY)
    ∧ (∀ n i d, d.currentY ≤ (drawNoteBox config n i d).currentY)
    ∧ (∀ n i e d out, drawEntry env config fuel n i e d = some out →
        d.currentY ≤ out.currentY)
    ∧ (∀ d, d.currentY ≤ (drawFooter env config d).currentY)

/-- The calls without the bottom edges of the note boxes: the second line drawn after each
`SetLineType("dashed")` is left out. `k` counts the lines drawn since the last such call
(`none` when the line type is not dashed). -/
def dropBottomEdges : Option Nat → List Call → List Call
  | _, [] => []
  | k, c :: rest =>
    match c with
    | Call.SetLineType t =>
      c :: dropBottomEdges (if t = go "dashed" then some 0 else none) rest
    | Call.Line _ _ _ _ =>
      match k with
      | some 1 => dropBottomEdges (some 2) rest
      | some j => c :: dropBottomEdges (some (j + 1)) rest
      | none => c :: dropBottomEdges none rest
    | _ => c :: dropBottomEdges k rest

/-- The suffix `calls` of a call sequence draws its elements, bottom edges of note boxes
left out, at the Y positions `ys`, whatever was called before it. -/
def Emits (calls : List Call) (ys : List ℚ) : Prop :=
  ∀ (k : Option Nat) (cur : Option ℚ), elementYs cur (dropBottomEdges k calls) = ys

/-- A stretch of the drawing pass from the state `d` to the state `d2`: calls are only
added, the elements they draw (bottom edges of note boxes left out) are at non-decreasing
Y positions between the cursor before and the cursor after, and the cursor has not gone
down. -/
def Forward (d d2 : Doc) : Prop :=
  ∃ (calls : List Call) (ys : List ℚ),
    d2.calls = d.calls ++ calls ∧ Emits calls ys ∧ List.Sorted (· ≤ ·) ys
      ∧ (∀ y ∈ ys, d.currentY ≤ y ∧ y ≤ d2.currentY) ∧ d.currentY ≤ d2.currentY

/-- A config with non-negative line height and spacing values in which the note box has no
height and the date follows without spacing. -/
def flatBoxConfig : PDFConfig := { DefaultConfig with NoteBoxHeight := 0, DateSpacing := 0 }

/-! ## Record parser -/

theorem allEmpty_eq (fs : List GoString) :
    allEmpty fs = !(fs.any (fun f => decide (TrimSpace f ≠ []))) := by
  induction fs with
  | nil => rfl
  | cons f rest ih =>
    by_cases h : TrimSpace f = [] <;> simp [allEmpty, h, ih]

theorem parseLine_eq (entries : List DeliveryEntry) (line : GoString) :
    parseLine entries line
      = entries ++ (if retainedLine line then [recordOfLine line] else []) := by
  unfold parseLine retainedLine
  by_cases hl : line = []
  · subst hl
    simp [Split]
  · simp only [hl, if_false]
    by_cases h5 : 5 ≤ (Split line 0x09).length
    · rw [allEmpty_eq]
      cases ha : ((Split line 0x09).take 5).any (fun f => decide (TrimSpace f ≠ []))
      · simp [h5]
      · simp only [h5, if_true, decide_True, Bool.and_self, Bool.not_true]
        unfold recordOfLine
        by_cases h6 : 5 < (Split line 0x09).length
        · simp [h6, List.getD_eq_getElem?_getD, List.getElem?_eq_getElem h6]
        · have : (Split line 0x09)[5]? = none := by
            apply List.getElem?_eq_none
            omega
          simp [h6, this]
    · simp [h5]

theorem foldl_parseLine (lines : List GoString) (acc : List DeliveryEntry) :
    lines.foldl parseLine acc = acc ++ (lines.filter retainedLine).map recordOfLine := by
  induction lines generalizing acc with
  | nil => simp
  | cons l rest ih =>
    rw [List.foldl_cons, ih, parseLine_eq]
    by_cases h : retainedLine l = true <;> simp [h, List.filter_cons]

/-- C1: `ParseContent` returns, in input order, exactly one record for each newline-separated
line that splits on the tab character into at least 5 fields with a non-blank field among
the first 5, and none for any other line; the record holds fields 0 to 4 and field 5 as
Notes when present. On `"1\tA\tAddr\t\t10+5\n"` it gives the single record with ID `"1"`,
Name `"A"`, empty Phone and Items `"10+5"`; on `"\t\t\t\t\t\n"` it gives no record. -/
theorem ParseContent_spec :
    (∀ content : GoString,
      ParseContent content = ((Split content 0x0A).filter retainedLine).map recordOfLine)
    ∧ ParseContent (go "1\tA\tAddr\t\t10+5\n")
        = [{ ID := go "1", Name := go "A", Address := go "Addr", Phone := go "",
             Items := go "10+5", Notes := go "" }]
    ∧ ParseContent (go "\t\t\t\t\t\n") = [] := by
  refine ⟨fun content => ?_, by decide, by decide⟩
  unfold ParseContent
  rw [foldl_parseLine]
  simp

/-! ## UTF-8 decoding -/

theorem acceptLo_ge (s0 : Nat) : 0x80 ≤ acceptLo s0 := by
  unfold acceptLo; split_ifs <;> omega

theorem runeSize_cases (s0 : Nat) : runeSize s0 = 2 ∨ runeSize s0 = 3 ∨ runeSize s0 = 4 := by
  unfold runeSize; split_ifs <;> simp

theorem DecodeRune_width_pos (s : GoString) (h : s ≠ []) : 1 ≤ (DecodeRune s).2 := by
  rcases s with _ | ⟨s0, t⟩
  · exact absurd rfl h
  · simp only [DecodeRune]
    split_ifs <;> simp

theorem IsSpace_32 : IsSpace 0x20 = true := by decide

theorem DecodeRune_no_space (s : GoString) (h : IsSpace (DecodeRune s).1 = false) :
    ∀ b ∈ s.take (DecodeRune s).2, b ≠ 0x20 := by
  rcases s with _ | ⟨s0, t⟩
  · simp
  · have hlo := acceptLo_ge s0
    have hsz := runeSize_cases s0
    revert h
    simp only [DecodeRune]
    by_cases h1 : s0 < 0x80
    · simp only [h1, if_true]
      intro h b hb
      simp only [List.take_succ_cons, List.take_zero, List.mem_singleton] at hb
      subst hb
      intro h32
      rw [h32, IsSpace_32] at h
      exact Bool.noConfusion h
    · simp only [h1, if_false]
      intro _
      have hs0 : s0 ≠ 0x20 := by omega
      split_ifs with h2 h3 h4 h5 h6 h7 h8
      · intro b hb
        simp only [List.take_succ_cons, List.take_zero, List.mem_singleton] at hb
        omega
      · intro b hb
        simp only [List.take_succ_cons, List.take_zero, List.mem_singleton] at hb
        omega
      · intro b hb
        simp only [List.take_succ_cons, List.take_zero, List.mem_singleton] at hb
        omega
      · rcases t with _ | ⟨t0, t⟩
        · simp at h3; omega
        · intro b hb
          simp only [List.getD_cons_zero] at h4
          simp only [List.take_succ_cons, List.take_zero, List.mem_cons, List.mem_singleton,
            List.not_mem_nil, or_false] at hb
          omega
      · intro b hb
        simp only [List.take_succ_cons, List.take_zero, List.mem_singleton] at hb
        omega
      · rcases t with _ | ⟨t0, _ | ⟨t1, t⟩⟩
        · simp at h3; omega
        · simp at h3; omega
        · intro b hb
          simp only [List.getD_cons_zero, List.getD_cons_succ] at h4 h6
          simp only [List.take_succ_cons, List.take_zero, List.mem_cons, List.mem_singleton,
            List.not_mem_nil, or_false] at hb
          omega
      · intro b hb
        simp only [List.take_succ_cons, List.take_zero, List.mem_singleton] at hb
        omega
      · rcases t with _ | ⟨t0, _ | ⟨t1, _ | ⟨t2, t⟩⟩⟩
        · simp at h3; omega
        · simp at h3; omega
        · simp at h3; omega
        · intro b hb
          simp only [List.getD_cons_zero, List.getD_cons_succ] at h4 h6 h8
          simp only [List.take_succ_cons, List.take_zero, List.mem_cons, List.mem_singleton,
            List.not_mem_nil, or_false] at hb
          omega

/-! ### Words returned by `Fields` -/

theorem fieldsLoop_ne_nil (n : Nat) (s cur : GoString) :
    ∀ w ∈ fieldsLoop n s cur, w ≠ [] := by
  induction n generalizing s cur with
  | zero =>
    intro w hw
    simp only [fieldsLoop] at hw
    split_ifs at hw with h
    · simp at hw
    · simp only [List.mem_singleton] at hw
      rw [hw]; exact h
  | succ n ih =>
    intro w hw
    rcases s with _ | ⟨s0, t⟩
    · simp only [fieldsLoop] at hw
      split_ifs at hw with h
      · simp at hw
      · simp only [List.mem_singleton] at hw
        rw [hw]; exact h
    · simp only [fieldsLoop] at hw
      split_ifs at hw with h1 h2
      · simp only [List.nil_append] at hw
        exact ih _ _ w hw
      · simp only [List.singleton_append, List.mem_cons] at hw
        rcases hw with hw | hw
        · rw [hw]; exact h2
        · exact ih _ _ w hw
      · exact ih _ _ w hw

theorem fieldsLoop_no_space (n : Nat) (s cur : GoString) (hcur : ∀ b ∈ cur, b ≠ 0x20) :
    ∀ w ∈ fieldsLoop n s cur, ∀ b ∈ w, b ≠ 0x20 := by
  induction n generalizing s cur with
  | zero =>
    intro w hw
    simp only [fieldsLoop] at hw
    split_ifs at hw with h
    · simp at hw
    · simp only [List.mem_singleton] at hw
      rw [hw]; exact hcur
  | succ n ih =>
    intro w hw
    rcases s with _ | ⟨s0, t⟩
    · simp only [fieldsLoop] at hw
      split_ifs at hw with h
      · simp at hw
      · simp only [List.mem_singleton] at hw
        rw [hw]; exact hcur
    · simp only [fieldsLoop] at hw
      have hnil : ∀ b ∈ ([] : GoString), b ≠ 0x20 := by simp
      split_ifs at hw with h1 h2
      · simp only [List.nil_append] at hw
        exact ih _ _ hnil w hw
      · simp only [List.singleton_append, List.mem_cons] at hw
        rcases hw with hw | hw
        · rw [hw]; exact hcur
        · exact ih _ _ hnil w hw
      · refine ih _ _ ?_ w hw
        intro b hb
        rcases List.mem_append.mp hb with hb | hb
        · exact hcur b hb
        · exact DecodeRune_no_space (s0 :: t) (by simpa using h1) b hb

theorem Fields_ne_nil (text : GoString) : ∀ w ∈ Fields text, w ≠ [] :=
  fieldsLoop_ne_nil _ _ _

theorem Fields_no_space (text : GoString) : ∀ w ∈ Fields text, ∀ b ∈ w, b ≠ 0x20 :=
  fieldsLoop_no_space _ _ _ (by simp)

/-! ### The hard-split loop -/

theorem splitPoint_le (measure : GoString → ℚ) (maxWidth : ℚ) (rw : GoString) :
    splitPoint measure maxWidth rw ≤ rw.length := by
  unfold splitPoint
  cases h : (List.range rw.length).find?
      (fun i => decide (measure (rw.take (i + 1)) > maxWidth)) with
  | none => simp
  | some i =>
    have := List.mem_of_find?_eq_some h
    simp only [List.mem_range] at this
    simp only [Option.getD_some]
    omega

theorem splitPoint_eq_zero (measure : GoString → ℚ) (maxWidth : ℚ) (rw : GoString)
    (hne : rw ≠ []) (h1 : measure (rw.take 1) > maxWidth) :
    splitPoint measure maxWidth rw = 0 := by
  rcases rw with _ | ⟨b, t⟩
  · exact absurd rfl hne
  · unfold splitPoint
    have : List.range (b :: t).length = 0 :: (List.range t.length).map Nat.succ := by
      simp [List.range_succ_eq_map]
    rw [this, List.find?_cons]
    simp only [Nat.zero_add]
    rw [decide_eq_true h1]
    rfl

theorem hardSplit_diverges (measure : GoString → ℚ) (maxWidth : ℚ) (rw : GoString)
    (hne : rw ≠ []) (h1 : measure (rw.take 1) > maxWidth) (fuel : Nat)
    (lines : List GoString) : hardSplit measure maxWidth fuel rw lines = none := by
  have hpos : 0 < rw.length := List.length_pos.mpr hne
  induction fuel generalizing lines with
  | zero => simp [hardSplit, hpos]
  | succ fuel ih =>
    simp only [hardSplit, hpos, if_true]
    rw [splitPoint_eq_zero measure maxWidth rw hne h1]
    simpa using ih _

theorem hardSplit_join (measure : GoString → ℚ) (maxWidth : ℚ) (fuel : Nat)
    (rw : GoString) (lines out : List GoString)
    (h : hardSplit measure maxWidth fuel rw lines = some out) :
    out.flatten = lines.flatten ++ rw := by
  induction fuel generalizing rw lines with
  | zero =>
    simp only [hardSplit] at h
    split_ifs at h with hpos
    simp only [Option.some.injEq] at h
    have : rw = [] := List.length_eq_zero.mp (by omega)
    simp [← h, this]
  | succ fuel ih =>
    simp only [hardSplit] at h
    split_ifs at h with hpos
    · rw [ih _ _ h]
      simp [List.flatten_append, List.append_assoc]
    · simp only [Option.some.injEq] at h
      have : rw = [] := List.length_eq_zero.mp (by omega)
      simp [← h, this]

/-! ### The word loop -/

theorem dropSpaces_append (a b : GoString) :
    dropSpaces (a ++ b) = dropSpaces a ++ dropSpaces b := by
  simp [dropSpaces]

theorem dropSpaces_word (w : GoString) (h : ∀ b ∈ w, b ≠ 0x20) : dropSpaces w = w := by
  unfold dropSpaces
  rw [List.filter_eq_self]
  intro b hb
  simpa using h b hb

theorem dropSpaces_space (w : GoString) : dropSpaces (0x20 :: w) = dropSpaces w := by
  simp [dropSpaces]

theorem wrapLoop_bytes (fuel : Nat) (measure : GoString → ℚ) (maxWidth : ℚ)
    (words : List GoString) (hw : ∀ w ∈ words, ∀ b ∈ w, b ≠ 0x20)
    (lines : List GoString) (currentLine : GoString) (out : List GoString)
    (h : wrapLoop fuel measure maxWidth words lines currentLine = some out) :
    dropSpaces out.flatten
      = dropSpaces (lines.flatten ++ currentLine) ++ words.flatten := by
  induction words generalizing lines currentLine with
  | nil =>
    simp only [wrapLoop, Option.some.injEq] at h
    split_ifs at h with hc
    · simp [← h]
    · have : currentLine = [] := by simpa using hc
      simp [← h, this]
  | cons word rest ih =>
    have hword : dropSpaces word = word := dropSpaces_word word (hw word (by simp))
    have hrest : ∀ w ∈ rest, ∀ b ∈ w, b ≠ 0x20 := fun w hw2 => hw w (by simp [hw2])
    simp only [wrapLoop] at h
    split_ifs at h with hc hwide hwide
    · rw [ih hrest _ _ h]
      simp [dropSpaces_append, hword, List.flatten_append]
    · rw [ih hrest _ _ h]
      simp [dropSpaces_append, hword, dropSpaces_space]
    · cases hs : hardSplit measure maxWidth fuel word lines with
      | none => rw [hs] at h; exact Option.noConfusion h
      | some lines2 =>
        rw [hs] at h
        simp only at h
        rw [ih hrest _ _ h, hardSplit_join _ _ _ _ _ _ hs]
        have : currentLine = [] := by simpa using hc
        simp [dropSpaces_append, hword, this]
    · rw [ih hrest _ _ h]
      have : currentLine = [] := by simpa using hc
      simp [dropSpaces_append, hword, this]

theorem joinWords_ne_nil (ws : List GoString) (hne : ws ≠ []) (hw : ∀ w ∈ ws, w ≠ []) :
    joinWords ws ≠ [] := by
  rcases ws with _ | ⟨a, _ | ⟨b, t⟩⟩
  · exact absurd rfl hne
  · simpa [joinWords, List.intercalate] using hw a (by simp)
  · have := hw a (by simp)
    simp [joinWords, List.intercalate, List.intersperse, this]

theorem joinWords_snoc (ws : List GoString) (w : GoString) (hne : ws ≠ []) :
    joinWords (ws ++ [w]) = joinWords ws ++ [0x20] ++ w := by
  induction ws with
  | nil => exact absurd rfl hne
  | cons a t ih =>
    rcases t with _ | ⟨b, t⟩
    · simp [joinWords, List.intercalate, List.intersperse]
    · have := ih (by simp)
      simp only [joinWords, List.intercalate] at this ⊢
      simp only [List.cons_append, List.intersperse_cons₂, List.flatten_cons,
        List.append_assoc] at this ⊢
      rw [this]

theorem testLine_eq (cur : List GoString) (word : GoString) (hw : ∀ w ∈ cur, w ≠ []) :
    (if joinWords cur ≠ [] then joinWords cur ++ [0x20] else joinWords cur) ++ word
      = joinWords (cur ++ [word]) := by
  by_cases hc : cur = []
  · subst hc
    simp [joinWords, List.intercalate]
  · rw [if_pos (joinWords_ne_nil cur hc hw), joinWords_snoc cur word hc]

theorem wrapLoop_runs (fuel : Nat) (measure : GoString → ℚ) (maxWidth : ℚ)
    (words : List GoString) (hne : ∀ w ∈ words, w ≠ [])
    (hfit : ∀ w ∈ words, measure w ≤ maxWidth)
    (lines : List GoString) (cur : List GoString) (hcur : ∀ w ∈ cur, w ≠ []) :
    ∃ runs : List (List GoString), (∀ r ∈ runs, r ≠ []) ∧ runs.flatten = cur ++ words ∧
      wrapLoop fuel measure maxWidth words lines (joinWords cur)
        = some (lines ++ runs.map joinWords) := by
  induction words generalizing lines cur with
  | nil =>
    by_cases hc : cur = []
    · subst hc
      exact ⟨[], by simp, by simp, by simp [wrapLoop, joinWords, List.intercalate]⟩
    · refine ⟨[cur], by simpa using hc, by simp, ?_⟩
      simp [wrapLoop, joinWords_ne_nil cur hc hcur]
  | cons word rest ih =>
    have hword : word ≠ [] := hne word (by simp)
    have hrne : ∀ w ∈ rest, w ≠ [] := fun w h => hne w (by simp [h])
    have hrfit : ∀ w ∈ rest, measure w ≤ maxWidth := fun w h => hfit w (by simp [h])
    simp only [wrapLoop]
    rw [testLine_eq cur word hcur]
    by_cases hwide : measure (joinWords (cur ++ [word])) > maxWidth
    · simp only [hwide, if_true]
      by_cases hc : cur = []
      · subst hc
        have := hfit word (by simp)
        simp only [List.nil_append, joinWords, List.intercalate, List.intersperse_singleton,
          List.flatten_cons, List.flatten_nil, List.append_nil] at hwide
        exact absurd hwide (not_lt.mpr this)
      · rw [if_pos (joinWords_ne_nil cur hc hcur)]
        obtain ⟨runs, h1, h2, h3⟩ :=
          ih hrne hrfit (lines ++ [joinWords cur]) [word] (by simpa using hword)
        refine ⟨cur :: runs, ?_, ?_, ?_⟩
        · intro r hr
          rcases List.mem_cons.mp hr with hr | hr
          · rw [hr]; exact hc
          · exact h1 r hr
        · simp [h2]
        · have hj : joinWords [word] = word := by simp [joinWords, List.intercalate]
          rw [hj] at h3
          rw [h3]
          simp
    · simp only [hwide, if_false]
      obtain ⟨runs, h1, h2, h3⟩ := ih hrne hrfit lines (cur ++ [word]) (by
        intro w hw
        rcases List.mem_append.mp hw with hw | hw
        · exact hcur w hw
        · simp only [List.mem_singleton] at hw
          rw [hw]; exact hword)
      exact ⟨runs, h1, by simpa using h2, h3⟩

theorem wrapLoop_one_line (fuel : Nat) (measure : GoString → ℚ) (maxWidth : ℚ)
    (words : List GoString) (hne : ∀ w ∈ words, w ≠ [])
    (lines : List GoString) (cur : List GoString) (hcur : ∀ w ∈ cur, w ≠ [])
    (hall : cur ++ words ≠ [])
    (hfit : ∀ j, 1 ≤ j → j ≤ words.length →
      measure (joinWords (cur ++ words.take j)) ≤ maxWidth) :
    wrapLoop fuel measure maxWidth words lines (joinWords cur)
      = some (lines ++ [joinWords (cur ++ words)]) := by
  induction words generalizing cur with
  | nil =>
    have hc : cur ≠ [] := by simpa using hall
    simp [wrapLoop, joinWords_ne_nil cur hc hcur]
  | cons word rest ih =>
    have hword : word ≠ [] := hne word (by simp)
    have hrne : ∀ w ∈ rest, w ≠ [] := fun w h => hne w (by simp [h])
    simp only [wrapLoop]
    rw [testLine_eq cur word hcur]
    have h1 := hfit 1 (le_refl 1) (by simp)
    simp only [List.take_succ_cons, List.take_zero] at h1
    rw [if_neg (not_lt.mpr h1)]
    have := ih hrne (cur ++ [word]) (by
        intro w hw
        rcases List.mem_append.mp hw with hw | hw
        · exact hcur w hw
        · simp only [List.mem_singleton] at hw
          rw [hw]; exact hword) (by simp) (by
        intro j hj1 hj2
        have := hfit (j + 1) (by omega) (by simp; omega)
        simpa using this)
    simpa using this

/-! ## Text wrapper -/

theorem wrapText_diverges (measure : GoString → ℚ) (maxWidth : ℚ) (text word : GoString)
    (rest : List GoString) (hf : Fields text = word :: rest)
    (hword : measure word > maxWidth) (h1 : measure (word.take 1) > maxWidth) (fuel : Nat) :
    wrapText fuel measure text maxWidth = none := by
  have hne : word ≠ [] := Fields_ne_nil text word (by simp [hf])
  simp only [wrapText, hf, wrapLoop]
  simp [hword, hardSplit_diverges measure maxWidth word hne h1 fuel []]

/-- C3 (fails on the code): on the text `"a"` with `maxWidth = 0` and a measure giving
every byte width 1, the single character already exceeds `maxWidth`; the hard-split loop
then picks split point 0, appends an empty chunk and keeps the whole word, so `wrapText`
does not return within any number of iterations (it neither terminates nor flushes the
word as one oversized line). -/
theorem wrapText_single_char_too_wide_never_returns :
    byteWidth (go "a") > 0 ∧ splitPoint byteWidth 0 (go "a") = 0
      ∧ ∀ fuel : Nat, wrapText fuel byteWidth (go "a") 0 = none := by
  refine ⟨by decide!, by decide!, fun fuel => ?_⟩
  exact wrapText_diverges byteWidth 0 (go "a") (go "a") [] (by decide) (by decide!)
    (by decide!) fuel

/-- C4: whenever `wrapText` returns, the concatenation of the returned lines with the space
bytes deleted is exactly the concatenation, in order, of the whitespace-separated words of
the text. -/
theorem wrapText_preserves_characters (fuel : Nat) (measure : GoString → ℚ)
    (text : GoString) (maxWidth : ℚ) (lines : List GoString)
    (h : wrapText fuel measure text maxWidth = some lines) :
    dropSpaces lines.flatten = (Fields text).flatten := by
  have := wrapLoop_bytes fuel measure maxWidth (Fields text) (Fields_no_space text) [] []
    lines h
  simpa [dropSpaces] using this

theorem wrapText_preserves_characters_witness :
    wrapText 3 byteWidth (go " abcdefgh  ij k ") 3
        = some [go "abc", go "def", go "gh", go "ij", go "k"]
      ∧ dropSpaces [go "abc", go "def", go "gh", go "ij", go "k"].flatten
        = (Fields (go " abcdefgh  ij k ")).flatten :=
  ⟨by decide!, wrapText_preserves_characters 3 byteWidth (go " abcdefgh  ij k ") 3 _
    (by decide!)⟩

/-- C5 (fails on the code): with every byte of width 1 and `maxWidth = 3`, the text
`"a bbbb"` is wrapped into the lines `"a"` and `"bbbb"`: the word `"bbbb"` arrives while the
buffer holds `"a"`, becomes the new buffer without being re-checked, and is flushed as a
line of width 4. The same word arriving on an empty buffer is hard-split into `"bbb"`,
`"b"`. -/
theorem wrapText_wide_word_after_flush_not_split :
    (∀ b : Nat, byteWidth [b] ≤ 3)
      ∧ (∀ fuel : Nat, wrapText fuel byteWidth (go "a bbbb") 3 = some [go "a", go "bbbb"])
      ∧ byteWidth (go "bbbb") > 3
      ∧ wrapText 2 byteWidth (go "bbbb") 3 = some [go "bbb", go "b"] := by
  refine ⟨fun b => by simp [byteWidth], fun fuel => ?_, by decide!, by decide!⟩
  rfl

/-- C6 (as stated, fails on the code): the empty text measures 0, under `maxWidth = 1`, and
`wrapText` returns no line at all; the text `"a  b"` measures 4, under `maxWidth = 9`, and
the single returned line `"a b"` differs from the trimmed input `"a  b"`; under a measure
that gives the first word more width than the whole text, the text `"ab c"` measures 1,
under `maxWidth = 5`, and is returned as the three lines `"a"`, `"b"`, `"c"`. -/
theorem wrapText_short_text_counterexample :
    (byteWidth (go "") < 1 ∧ ∀ fuel : Nat, wrapText fuel byteWidth (go "") 1 = some [])
      ∧ (byteWidth (go "a  b") < 9 ∧ TrimSpace (go "a  b") = go "a  b"
          ∧ (∀ fuel : Nat, wrapText fuel byteWidth (go "a  b") 9 = some [go "a b"])
          ∧ go "a b" ≠ TrimSpace (go "a  b"))
      ∧ (unevenWidth (go "ab c") < 5
          ∧ wrapText 2 unevenWidth (go "ab c") 5 = some [go "a", go "b", go "c"]) := by
  refine ⟨⟨by decide!, fun fuel => rfl⟩,
    ⟨by decide!, by decide, fun fuel => rfl, by decide⟩, by decide!, by decide!⟩

theorem wrapText_one_line (fuel : Nat) (measure : GoString → ℚ) (text : GoString)
    (maxWidth : ℚ) (hne : Fields text ≠ [])
    (hfit : ∀ j, 1 ≤ j → j ≤ (Fields text).length →
      measure (joinWords ((Fields text).take j)) ≤ maxWidth) :
    wrapText fuel measure text maxWidth = some [joinWords (Fields text)] := by
  have h := wrapLoop_one_line fuel measure maxWidth (Fields text) (Fields_ne_nil text) [] []
    (by simp) (by simpa using hne) (by simpa using hfit)
  unfold wrapText
  simpa [joinWords, List.intercalate] using h

/-- C6 (amended): for every text with at least one word whose words are separated by single
spaces (the trimmed text is the single-space join of its words), if the text measures at
most `maxWidth` and the single-space join of its first `j` words (`j ≥ 1`) never measures
more than the text, then `wrapText` returns exactly one line, and that line is the input
with its leading and trailing whitespace trimmed. -/
theorem wrapText_short_text (fuel : Nat) (measure : GoString → ℚ) (text : GoString)
    (maxWidth : ℚ) (hne : Fields text ≠ [])
    (hsingle : TrimSpace text = joinWords (Fields text))
    (hparts : ∀ j, 1 ≤ j → j ≤ (Fields text).length →
      measure (joinWords ((Fields text).take j)) ≤ measure text)
    (hfit : measure text ≤ maxWidth) :
    wrapText fuel measure text maxWidth = some [TrimSpace text] := by
  rw [hsingle]
  exact wrapText_one_line fuel measure text maxWidth hne
    (fun j h1 h2 => le_trans (hparts j h1 h2) hfit)

theorem wrapText_short_text_witness :
    Fields (go " ab cd ") ≠ []
      ∧ TrimSpace (go " ab cd ") = joinWords (Fields (go " ab cd "))
      ∧ (∀ j, 1 ≤ j → j ≤ (Fields (go " ab cd ")).length →
          byteWidth (joinWords ((Fields (go " ab cd ")).take j)) ≤ byteWidth (go " ab cd "))
      ∧ byteWidth (go " ab cd ") ≤ 8
      ∧ TrimSpace (go " ab cd ") = go "ab cd"
      ∧ wrapText 0 byteWidth (go " ab cd ") 8 = some [TrimSpace (go " ab cd ")] := by
  have hparts : ∀ j, 1 ≤ j → j ≤ (Fields (go " ab cd ")).length →
      byteWidth (joinWords ((Fields (go " ab cd ")).take j)) ≤ byteWidth (go " ab cd ") := by
    intro j h1 h2
    have h3 : j ≤ 2 := h2
    interval_cases j <;> decide!
  exact ⟨by decide, by decide, hparts, by decide!, by decide,
    wrapText_short_text 0 byteWidth (go " ab cd ") 8 (by decide) (by decide) hparts
      (by decide!)⟩

/-- C7: when every whitespace-separated word of the text alone measures at most `maxWidth`,
`wrapText` returns, and the returned lines are the single-space joins of non-empty runs of
consecutive whole words which, taken in order, partition the word sequence of the text. -/
theorem wrapText_whole_words (fuel : Nat) (measure : GoString → ℚ) (text : GoString)
    (maxWidth : ℚ) (hfit : ∀ w ∈ Fields text, measure w ≤ maxWidth) :
    ∃ runs : List (List GoString), (∀ r ∈ runs, r ≠ []) ∧ runs.flatten = Fields text ∧
      wrapText fuel measure text maxWidth = some (runs.map joinWords) := by
  obtain ⟨runs, h1, h2, h3⟩ := wrapLoop_runs fuel measure maxWidth (Fields text)
    (Fields_ne_nil text) hfit [] [] (by simp)
  refine ⟨runs, h1, by simpa using h2, ?_⟩
  unfold wrapText
  simpa [joinWords, List.intercalate] using h3

theorem wrapText_whole_words_witness :
    (∀ w ∈ Fields (go "the quick  brown fox"), byteWidth w ≤ 9)
      ∧ wrapText 0 byteWidth (go "the quick  brown fox") 9
          = some [go "the quick", go "brown fox"]
      ∧ ∃ runs : List (List GoString), (∀ r ∈ runs, r ≠ [])
          ∧ runs.flatten = Fields (go "the quick  brown fox")
          ∧ wrapText 0 byteWidth (go "the quick  brown fox") 9 = some (runs.map joinWords) :=
  ⟨by decide!, by decide!,
    wrapText_whole_words 0 byteWidth (go "the quick  brown fox") 9 (by decide!)⟩

/-! ## Pricing calculator -/

theorem F64.add_zero (x : F64) : F64.add x (F64.fin 0) = x := by
  cases x <;> simp [F64.add]

theorem foldl_addItem (scanf : GoString → F64 × Bool) (items : List GoString) (acc : F64) :
    items.foldl (addItem scanf) acc
      = (items.map (tokenContribution scanf)).foldl F64.add acc := by
  induction items generalizing acc with
  | nil => simp
  | cons item rest ih =>
    rw [List.foldl_cons, ih, List.map_cons, List.foldl_cons]
    by_cases h : (scanf (TrimSpace item)).2 = true
    · simp [addItem, parseFloat, tokenContribution, h]
    · simp [addItem, parseFloat, tokenContribution, h, F64.add_zero]

theorem foldl_parsed_only (scanf : GoString → F64 × Bool) (items : List GoString)
    (acc : F64) :
    (items.map (tokenContribution scanf)).foldl F64.add acc
      = ((items.filter (fun token => (scanf (TrimSpace token)).2)).map
          (fun token => F64.mul (scanf (TrimSpace token)).1 (F64.fin 1000))).foldl
            F64.add acc := by
  induction items generalizing acc with
  | nil => simp
  | cons item rest ih =>
    by_cases h : (scanf (TrimSpace item)).2 = true
    · simp [List.filter_cons, tokenContribution, h, ih]
    · simp [List.filter_cons, tokenContribution, h, ih, F64.add_zero]

/-- C2 (as stated, fails on the code): the tokens of `"10000000000000000+1"` parse to
`10000000000000000` and `1`, whose thousandfolds `10000000000000000000` and `1000` are exact,
yet the total is `10000000000000000000`: the `float64` addition absorbs the second
contribution. The token `"1.001"` parses to the `float64` nearest to it, and the total, the
`float64` product with 1000, is `1000.9999999999998863…`, neither 1000 times the parsed
value nor 1001. -/
theorem CalculateTotal_exact_sum_counterexample :
    (scanDecimal (TrimSpace (go "10000000000000000")) = (F64.fin 10000000000000000, true)
      ∧ scanDecimal (TrimSpace (go "1")) = (F64.fin 1, true)
      ∧ CalculateTotal scanDecimal { exampleEntry with Items := go "10000000000000000+1" }
          = F64.fin 10000000000000000000
      ∧ (10000000000000000000 : ℚ) ≠ 1000 * 10000000000000000 + 1000 * 1)
    ∧ (scanDecimal (TrimSpace (go "1.001"))
          = (F64.fin (2254051613498933 / 2251799813685248), true)
      ∧ CalculateTotal scanDecimal { exampleEntry with Items := go "1.001" }
          = F64.fin (8804889115230207 / 8796093022208)
      ∧ (8804889115230207 / 8796093022208 : ℚ)
          ≠ 1000 * (2254051613498933 / 2251799813685248)
      ∧ (8804889115230207 / 8796093022208 : ℚ) ≠ 1001) := by
  refine ⟨⟨by decide!, by decide!, by decide!, by norm_num⟩,
    by decide!, by decide!, by norm_num, by norm_num⟩

/-- C2 (amended): `CalculateTotal` is the `float64` running sum, taken from 0 in the order
of the tokens of the Items string split on `+`, of the `float64` product of the value of
the token and 1000 when the trimmed token parses and of 0 when it does not; it is the same
running sum over the parsed tokens alone, so an unparseable token neither stops the
computation nor changes what the other tokens contribute. The total of `"10+5"` is 15000
and so is the total of `"10+abc+5"`. -/
theorem CalculateTotal_running_sum :
    (∀ (scanf : GoString → F64 × Bool) (e : DeliveryEntry),
      CalculateTotal scanf e
        = ((Split e.Items 0x2B).map (tokenContribution scanf)).foldl F64.add (F64.fin 0))
    ∧ (∀ (scanf : GoString → F64 × Bool) (e : DeliveryEntry),
      CalculateTotal scanf e
        = (((Split e.Items 0x2B).filter (fun token => (scanf (TrimSpace token)).2)).map
            (fun token => F64.mul (scanf (TrimSpace token)).1 (F64.fin 1000))).foldl
              F64.add (F64.fin 0))
    ∧ CalculateTotal scanDecimal { exampleEntry with Items := go "10+5" } = F64.fin 15000
    ∧ CalculateTotal scanDecimal { exampleEntry with Items := go "10+abc+5" }
        = F64.fin 15000 := by
  refine ⟨fun scanf e => ?_, fun scanf e => ?_, by decide!, by decide!⟩
  · unfold CalculateTotal
    rw [foldl_addItem]
  · unfold CalculateTotal
    rw [foldl_addItem, foldl_parsed_only]

/-! ## Item grid -/

theorem drawItem_eq (env : Env) (config : PDFConfig) (d : Doc) (j : Nat) (item : GoString) :
    drawItem env config d j item
      = { d with calls := d.calls ++ itemCalls env config j d.currentY item } := by
  unfold drawItem itemCalls itemLabel parseFloat FormatNumber
  by_cases h : (env.Sscanf (TrimSpace item)).2 = true
  · by_cases hv : (F64.mul (env.Sscanf (TrimSpace item)).1 (F64.fin 1000)).isZero = true
    · simp [h, hv, Doc.SetX, Doc.SetY, Doc.Cell, Doc.call]
    · simp [h, hv, Doc.SetX, Doc.SetY, Doc.Cell, Doc.call]
  · simp [h]

theorem drawItemRow_three (env : Env) (config : PDFConfig) (d : Doc) (a b c : GoString) :
    drawItemRow env config d [a, b, c]
      = { d with
          calls := d.calls ++ (itemCalls env config 0 d.currentY a
            ++ itemCalls env config 1 d.currentY b ++ itemCalls env config 2 d.currentY c),
          currentY := d.currentY + (config.LineHeight + config.ItemSpacing) } := by
  simp [drawItemRow, List.enum, List.enumFrom, drawItem_eq, Doc.advance]

theorem drawItemRow_two (env : Env) (config : PDFConfig) (d : Doc) (a b : GoString) :
    drawItemRow env config d [a, b]
      = { d with
          calls := d.calls ++ (itemCalls env config 0 d.currentY a
            ++ itemCalls env config 1 d.currentY b),
          currentY := d.currentY + (config.LineHeight + config.ItemSpacing) } := by
  simp [drawItemRow, List.enum, List.enumFrom, drawItem_eq, Doc.advance]

theorem drawItemRow_one (env : Env) (config : PDFConfig) (d : Doc) (a : GoString) :
    drawItemRow env config d [a]
      = { d with
          calls := d.calls ++ itemCalls env config 0 d.currentY a,
          currentY := d.currentY + (config.LineHeight + config.ItemSpacing) } := by
  simp [drawItemRow, List.enum, List.enumFrom, drawItem_eq, Doc.advance]

theorem drawItemRows_calls (env : Env) (config : PDFConfig) (items : List GoString)
    (d : Doc) (y0 : ℚ) (r : Nat)
    (hy : d.currentY = y0 + (r : ℚ) * (config.LineHeight + config.ItemSpacing)) :
    (drawItemRows env config items d).calls
      = d.calls ++ gridCalls env config y0 (3 * r) items := by
  induction items, d using drawItemRows.induct env config generalizing r with
  | case1 d => simp [drawItemRows, gridCalls]
  | case2 a b c rest d ih =>
    rw [drawItemRows, ih (r + 1)]
    · have e0 : (3 * r) / 3 = r := by omega
      have e1 : (3 * r + 1) / 3 = r := by omega
      have e2 : (3 * r + 1 + 1) / 3 = r := by omega
      have m0 : (3 * r) % 3 = 0 := by omega
      have m1 : (3 * r + 1) % 3 = 1 := by omega
      have m2 : (3 * r + 1 + 1) % 3 = 2 := by omega
      have e3 : 3 * r + 1 + 1 + 1 = 3 * (r + 1) := by ring
      simp only [drawItemRow_three, gridCalls, e0, e1, e2, m0, m1, m2, e3, ← hy,
        List.append_assoc]
    · rw [drawItemRow_three]
      simp only [hy]
      push_cast
      ring
  | case3 d a b =>
    have e0 : (3 * r) / 3 = r := by omega
    have e1 : (3 * r + 1) / 3 = r := by omega
    have m0 : (3 * r) % 3 = 0 := by omega
    have m1 : (3 * r + 1) % 3 = 1 := by omega
    simp only [drawItemRows, drawItemRow_two, gridCalls, e0, e1, m0, m1, ← hy,
      List.append_nil]
  | case4 d a =>
    have e0 : (3 * r) / 3 = r := by omega
    have m0 : (3 * r) % 3 = 0 := by omega
    simp only [drawItemRows, drawItemRow_one, gridCalls, e0, m0, ← hy, List.append_nil]

theorem gridCalls_append (env : Env) (config : PDFConfig) (y0 : ℚ) (k : Nat)
    (a b : List GoString) :
    gridCalls env config y0 k (a ++ b)
      = gridCalls env config y0 k a ++ gridCalls env config y0 (k + a.length) b := by
  induction a generalizing k with
  | nil => simp [gridCalls]
  | cons x rest ih =>
    have hk : k + 1 + rest.length = k + (rest.length + 1) := by omega
    rw [List.cons_append, gridCalls, gridCalls, ih, List.length_cons, List.append_assoc, hk]

/-- C8 (as stated, fails on the code): the token `"311561825827480896"` parses to the
`float64` of that value, which formats as `311561825827480896`; its converted price is the
`float64` product `311561825827480928256`, not 1000 times the value, and the label drawn
is made from the `float64` quotient of that product and 1000, `"• 311561825827480960k"`. -/
theorem item_label_counterexample :
    scanDecimal (TrimSpace (go "311561825827480896")) = (F64.fin 311561825827480896, true)
      ∧ formatWhole (F64.fin 311561825827480896) = go "311561825827480896"
      ∧ (drawItem exampleEnv DefaultConfig { font := fontRegular8, calls := [], currentY := 30 }
            0 (go "311561825827480896")).calls
          = [Call.SetX 4, Call.SetY 30, Call.Cell (go "• 311561825827480960k")]
      ∧ CalculateTotal scanDecimal { exampleEntry with Items := go "311561825827480896" }
          = F64.fin 311561825827480928256
      ∧ (311561825827480928256 : ℚ) ≠ 1000 * 311561825827480896 := by
  refine ⟨by decide!, by decide!, by decide!, by decide!, by norm_num⟩

/-- C8 (amended): item rendering and the total use the same per-token conversion. For a
token of the Items string that parses to the value `v`, with `p` the `float64` product of
`v` and 1000: the running total, which is the `float64` sum of the contributions of the
tokens before it, becomes its `float64` sum with `p`, and the contributions of the tokens
after it are then added in turn; and the item grid of `GeneratePDF` draws, at the position
of the token (column: its index modulo 3, row: its index divided by 3), the gift marker
`"• Kadoa"` when `p` is zero, as it is when `v` is zero, and otherwise `"• "`, the `float64`
quotient of `p` and 1000 formatted as a whole number, `"k"`. -/
theorem item_label_matches_total (env : Env) (config : PDFConfig) (e : DeliveryEntry)
    (before after : List GoString) (token : GoString) (v : F64)
    (hs : Split e.Items 0x2B = before ++ token :: after)
    (hv : env.Sscanf (TrimSpace token) = (v, true)) :
    CalculateTotal env.Sscanf e
        = (after.map (tokenContribution env.Sscanf)).foldl F64.add
            (F64.add ((before.map (tokenContribution env.Sscanf)).foldl F64.add (F64.fin 0))
              (F64.mul v (F64.fin 1000)))
      ∧ (∀ d : Doc, (drawItemRows env config (Split e.Items 0x2B) d).calls
          = d.calls ++ gridCalls env config d.currentY 0 before
            ++ [Call.SetX (config.MarginLeft + config.ItemWidth * ((before.length % 3 : Nat) : ℚ)),
                Call.SetY (d.currentY + ((before.length / 3 : Nat) : ℚ)
                  * (config.LineHeight + config.ItemSpacing)),
                Call.Cell (if (F64.mul v (F64.fin 1000)).isZero then go "• Kadoa"
                  else go "• "
                    ++ FormatNumber env.Sprintf0 (F64.div (F64.mul v (F64.fin 1000)) (F64.fin 1000))
                    ++ go "k")]
            ++ gridCalls env config d.currentY (before.length + 1) after)
      ∧ (v = F64.fin 0 → (F64.mul v (F64.fin 1000)).isZero = true) := by
  refine ⟨?_, ?_, ?_⟩
  · unfold CalculateTotal
    rw [foldl_addItem, hs]
    simp [tokenContribution, hv]
  · intro d
    rw [drawItemRows_calls env config _ d d.currentY 0 (by simp), hs, gridCalls_append]
    simp [gridCalls, itemCalls, hv, FormatNumber]
  · intro h0
    rw [h0]
    decide!

theorem item_label_matches_total_witness :
    Split (go "0+5") 0x2B = [go "0"] ++ go "5" :: []
      ∧ scanDecimal (TrimSpace (go "5")) = (F64.fin 5, true)
      ∧ CalculateTotal scanDecimal { exampleEntry with Items := go "0+5" } = F64.fin 5000
      ∧ (drawItemRows exampleEnv DefaultConfig (Split (go "0+5") 0x2B)
            { font := fontRegular8, calls := [], currentY := 30 }).calls
          = [Call.SetX 4, Call.SetY 30, Call.Cell (go "• Kadoa"),
             Call.SetX 29, Call.SetY 30, Call.Cell (go "• 5k")] := by
  have hs : Split ({ exampleEntry with Items := go "0+5" } : DeliveryEntry).Items 0x2B
      = [go "0"] ++ go "5" :: [] := by decide
  have hv : exampleEnv.Sscanf (TrimSpace (go "5")) = (F64.fin 5, true) := by decide!
  have h := item_label_matches_total exampleEnv DefaultConfig
    { exampleEntry with Items := go "0+5" } [go "0"] [] (go "5") (F64.fin 5) hs hv
  refine ⟨hs, hv, ?_, by decide!⟩
  have h1 := h.1
  rw [show exampleEnv.Sscanf = scanDecimal from rfl] at h1
  rw [h1]
  decide!

/-! ## Cursor arithmetic of the drawing pass -/

theorem foldl_drawZoneLine_currentY (config : PDFConfig) (lines : List GoString) (d : Doc) :
    (lines.foldl (drawZoneLine config) d).currentY
      = d.currentY + (lines.length : ℚ) * (config.LineHeight + 1) := by
  induction lines generalizing d with
  | nil => simp
  | cons l rest ih =>
    rw [List.foldl_cons, ih]
    simp only [drawZoneLine, Doc.advance, Doc.Cell, Doc.SetX, Doc.SetY, Doc.call,
      List.length_cons]
    push_cast
    ring

theorem foldl_drawAddressLine_currentY (config : PDFConfig) (al lines : List GoString)
    (d : Doc) :
    (lines.foldl (drawAddressLine config al) d).currentY
      = d.currentY + (lines.length : ℚ) * (config.LineHeight + 0.5) := by
  induction lines generalizing d with
  | nil => simp
  | cons l rest ih =>
    rw [List.foldl_cons, ih]
    have : (drawAddressLine config al d l).currentY
        = d.currentY + (config.LineHeight + 0.5) := by
      unfold drawAddressLine
      split_ifs <;> simp [Doc.advance, Doc.Cell, Doc.SetX, Doc.SetY, Doc.call]
    rw [this]
    simp only [List.length_cons]
    push_cast
    ring

theorem foldl_drawNoteLine_currentY (config : PDFConfig) (lines : List GoString) (d : Doc) :
    (lines.foldl (drawNoteLine config) d).currentY
      = d.currentY + (lines.length : ℚ) * (config.LineHeight + 0.5) := by
  induction lines generalizing d with
  | nil => simp
  | cons l rest ih =>
    rw [List.foldl_cons, ih]
    simp only [drawNoteLine, Doc.advance, Doc.Cell, Doc.SetX, Doc.SetY, Doc.call,
      List.length_cons]
    push_cast
    ring

theorem drawItemRows_currentY (env : Env) (config : PDFConfig) (items : List GoString)
    (d : Doc) :
    (drawItemRows env config items d).currentY
      = d.currentY + (((items.length + 2) / 3 : Nat) : ℚ)
          * (config.LineHeight + config.ItemSpacing) := by
  induction items, d using drawItemRows.induct env config with
  | case1 d => simp [drawItemRows]
  | case2 a b c rest d ih =>
    rw [drawItemRows, ih, drawItemRow_three]
    have : (([a, b, c] ++ rest).length + 2) / 3 = (rest.length + 2) / 3 + 1 := by
      simp only [List.length_append, List.length_cons, List.length_nil]
      omega
    simp only [List.cons_append, List.nil_append] at this
    rw [this]
    push_cast
    ring
  | case3 d a b => simp [drawItemRows, drawItemRow_two]
  | case4 d a => simp [drawItemRows, drawItemRow_one]

theorem drawEntryHead_currentY (env : Env) (config : PDFConfig) (e : DeliveryEntry)
    (d : Doc) :
    (drawEntryHead env config e d).currentY
      = d.currentY + (config.LineHeight + 2) + (config.LineHeight + config.NameSpacing) := by
  unfold drawEntryHead
  split_ifs <;> simp [Doc.advance, Doc.Cell, Doc.SetX, Doc.SetY, Doc.SetFont, Doc.call] <;>
    norm_num

theorem drawAddress_currentY (env : Env) (config : PDFConfig) (fuel : Nat)
    (e : DeliveryEntry) (d out : Doc) (h : drawAddress env config fuel e d = some out) :
    out.currentY = d.currentY
      + addressLineCount env fuel config e * (config.LineHeight + 0.5)
      + config.AddressSpacing := by
  unfold drawAddress at h
  simp only [Doc.SetFont] at h
  unfold addressLineCount fontRegular8
  cases hw : wrapText fuel
      (env.MeasureTextWidth { family := go "regular", style := go "", size := 8 }) e.Address
      (config.PageWidth - config.MarginLeft - config.MarginRight - 7) with
  | none => rw [hw] at h; exact Option.noConfusion h
  | some ls =>
    rw [hw] at h
    simp only [Option.some.injEq] at h
    rw [← h]
    simp [Doc.advance, foldl_drawAddressLine_currentY, lineCount]

theorem drawPhoneAndItems_currentY (env : Env) (config : PDFConfig) (e : DeliveryEntry)
    (d : Doc) :
    (drawPhoneAndItems env config e d).currentY
      = d.currentY + (config.LineHeight + config.PhoneSpacing)
        + (config.LineHeight + config.ItemSpacing)
        + itemRowCount e * (config.LineHeight + config.ItemSpacing) := by
  unfold drawPhoneAndItems itemRowCount
  simp only [drawItemRows_currentY]
  split_ifs <;> simp [Doc.advance, Doc.Cell, Doc.SetX, Doc.SetY, Doc.call]

theorem drawNotes_currentY (env : Env) (config : PDFConfig) (fuel : Nat)
    (e : DeliveryEntry) (d out : Doc) (h : drawNotes env config fuel e d = some out) :
    out.currentY = d.currentY
      + (if e.Notes ≠ [] then
          config.SectionSpacing + noteLineCount env fuel config e * (config.LineHeight + 0.5)
        else 0) := by
  unfold drawNotes at h
  by_cases hn : e.Notes ≠ []
  · rw [if_pos hn] at h
    simp only [Doc.SetFont, Doc.SetX, Doc.call] at h
    rw [if_pos hn]
    unfold noteLineCount fontRegular8
    cases hw : wrapText fuel
        (env.MeasureTextWidth { family := go "regular", style := go "", size := 8 }) e.Notes
        (config.PageWidth - config.MarginLeft - config.MarginRight - 12) with
    | none => rw [hw] at h; exact Option.noConfusion h
    | some ls =>
      rw [hw] at h
      simp only [Option.some.injEq] at h
      rw [← h]
      simp [Doc.advance, Doc.Cell, Doc.SetY, Doc.SetX, Doc.call, foldl_drawNoteLine_currentY,
        lineCount]
      ring
  · rw [if_neg hn] at h
    simp only [Option.some.injEq] at h
    rw [if_neg hn, ← h]
    simp

theorem drawNoteBox_currentY (config : PDFConfig) (n i : Nat) (d : Doc) :
    (drawNoteBox config n i d).currentY
      = d.currentY + config.SectionSpacing + config.NoteBoxHeight
        + (if (i : Int) < (n : Int) - 1 then
            config.EntrySpacing / 2 + config.EntrySpacing / 2
          else 0) := by
  unfold drawNoteBox
  split_ifs
  · simp [Doc.advance, Doc.Cell, Doc.SetX, Doc.SetY, Doc.SetFont, Doc.call]
    ring
  · simp [Doc.advance, Doc.Cell, Doc.SetX, Doc.SetY, Doc.SetFont, Doc.call]

theorem drawEntry_currentY (env : Env) (config : PDFConfig) (fuel n i : Nat)
    (e : DeliveryEntry) (d out : Doc) (h : drawEntry env config fuel n i e d = some out) :
    out.currentY = d.currentY + entryHeight env fuel config n i e := by
  unfold drawEntry at h
  cases ha : drawAddress env config fuel e (drawEntryHead env config e d) with
  | none => rw [ha] at h; exact Option.noConfusion h
  | some d1 =>
    rw [ha] at h
    simp only at h
    cases hn : drawNotes env config fuel e (drawPhoneAndItems env config e d1) with
    | none => rw [hn] at h; exact Option.noConfusion h
    | some d2 =>
      rw [hn] at h
      simp only [Option.some.injEq] at h
      rw [← h, drawNoteBox_currentY, drawNotes_currentY env config fuel e _ d2 hn,
        drawPhoneAndItems_currentY, drawAddress_currentY env config fuel e _ d1 ha,
        drawEntryHead_currentY]
      unfold entryHeight
      ring

theorem drawEntries_currentY_le (env : Env) (config : PDFConfig) (fuel n : Nat) (bound : ℚ)
    (entries : List DeliveryEntry)
    (hb : ∀ e ∈ entries, ∀ i, entryHeight env fuel config n i e ≤ bound)
    (i : Nat) (d out : Doc) (h : drawEntries env config fuel n i entries d = some out) :
    out.currentY ≤ d.currentY + (entries.length : ℚ) * bound := by
  induction entries generalizing i d with
  | nil =>
    simp only [drawEntries, Option.some.injEq] at h
    simp [← h]
  | cons e rest ih =>
    simp only [drawEntries] at h
    cases he : drawEntry env config fuel n i e d with
    | none => rw [he] at h; exact Option.noConfusion h
    | some d1 =>
      rw [he] at h
      simp only at h
      have h1 := ih (fun e2 h2 => hb e2 (by simp [h2])) (i + 1) d1 h
      have h2 := drawEntry_currentY env config fuel n i e d d1 he
      have h3 := hb e (by simp) i
      simp only [List.length_cons]
      push_cast
      linarith

theorem drawFooter_currentY (env : Env) (config : PDFConfig) (d : Doc) :
    (drawFooter env config d).currentY
      = d.currentY + config.DateSpacing + (config.LineHeight + 2)
        + (config.LineHeight + 2) := by
  simp [drawFooter, Doc.advance, Doc.Cell, Doc.SetX, Doc.SetY, Doc.SetFont, Doc.call]
  norm_num

theorem GeneratePDF_currentY_le (env : Env) (fuel : Nat) (zone : GoString)
    (entries : List DeliveryEntry) (config : PDFConfig) (bound : ℚ) (out : Layout)
    (hb : ∀ e ∈ entries, ∀ i, entryHeight env fuel config entries.length i e ≤ bound)
    (h : GeneratePDF env fuel zone entries config = some out) :
    out.totalHeight = (entries.length : ℚ) * 50 + 30 ∧
    out.currentY ≤ config.MarginTop + (if env.logoExists then 12 else 0)
      + zoneLineCount env fuel config zone * (config.LineHeight + 1) + config.ZoneSpacing
      + (entries.length : ℚ) * bound
      + config.DateSpacing + (config.LineHeight + 2) + (config.LineHeight + 2) := by
  unfold GeneratePDF at h
  simp only [Doc.SetFont, Doc.SetX, Doc.SetY, Doc.call] at h
  unfold zoneLineCount fontBold12
  cases hw : wrapText fuel
      (env.MeasureTextWidth { family := go "bold", style := go "", size := 12 }) zone
      (config.PageWidth - config.MarginLeft - config.MarginRight - 4) with
  | none =>
    rw [hw] at h
    exact Option.noConfusion h
  | some zoneLines =>
    rw [hw] at h
    simp only at h
    split at h
    · exact Option.noConfusion h
    · rename_i d hd
      simp only [Option.some.injEq] at h
      have h1 := drawEntries_currentY_le env config fuel entries.length bound entries hb 0 _ d hd
      simp only [Doc.advance, foldl_drawZoneLine_currentY] at h1
      rw [← h]
      simp only [drawFooter_currentY, lineCount]
      refine ⟨trivial, ?_⟩
      by_cases hl : env.logoExists = true
      · simp only [hl, if_true] at h1 ⊢
        linarith
      · simp only [hl] at h1 ⊢
        simp only [Bool.false_eq_true, if_false] at h1 ⊢
        linarith

/-! ## Document composer -/

/-- C9 (as stated, fails on the code): with the default config, no logo, a one-line zone
and one entry whose Items field has 19 tokens (7 rows of the grid), the page height is
`1 × 50 + 30 = 80` while the final cursor is `82.5`; with a logo and no entry at all the page
height is `30` and the final cursor is `33`. -/
theorem GeneratePDF_page_height_counterexample :
    ((GeneratePDF exampleEnv 0 (go "Z") [{ exampleEntry with Items := manyItems }]
        DefaultConfig).map (fun l => (l.totalHeight, l.currentY)) = some (80, 165 / 2)
      ∧ ¬ ((165 / 2 : ℚ) + DefaultConfig.LineHeight ≤ 80))
    ∧ ((GeneratePDF { exampleEnv with logoExists := true } 0 (go "Z") []
        DefaultConfig).map (fun l => (l.totalHeight, l.currentY)) = some (30, 33)
      ∧ ¬ ((33 : ℚ) + DefaultConfig.LineHeight ≤ 30)) := by
  refine ⟨⟨by decide!, by decide!⟩, by decide!, by decide!⟩

/-- C9 (amended): the page height is the fixed estimate `(entry count × 50) + 30`; with the
default config the final cursor position plus one line height does not exceed it when no
logo is drawn, the zone heading wraps into at most 3 lines and, for every entry,
`2.5 × (address lines) + 4.5 × (item rows) + (2 + 2.5 × (note lines)` when Notes is not
empty`)` is at most `18.5`. -/
theorem GeneratePDF_fits_page (env : Env) (fuel : Nat) (zone : GoString)
    (entries : List DeliveryEntry) (out : Layout)
    (h : GeneratePDF env fuel zone entries DefaultConfig = some out)
    (hlogo : env.logoExists = false)
    (hzone : zoneLineCount env fuel DefaultConfig zone ≤ 3)
    (hentry : ∀ e ∈ entries,
      2.5 * addressLineCount env fuel DefaultConfig e + 4.5 * itemRowCount e
        + (if e.Notes ≠ [] then 2 + 2.5 * noteLineCount env fuel DefaultConfig e else 0)
        ≤ 18.5) :
    out.totalHeight = (entries.length : ℚ) * 50 + 30
      ∧ out.currentY + DefaultConfig.LineHeight ≤ out.totalHeight := by
  have hb : ∀ e ∈ entries, ∀ i,
      entryHeight env fuel DefaultConfig entries.length i e ≤ 50 := by
    intro e he i
    have h1 := hentry e he
    unfold entryHeight
    simp only [DefaultConfig] at h1 ⊢
    by_cases hn : e.Notes ≠ []
    · rw [if_pos hn] at h1 ⊢
      split_ifs <;> norm_num at h1 ⊢ <;> linarith
    · rw [if_neg hn] at h1 ⊢
      split_ifs <;> norm_num at h1 ⊢ <;> linarith
  obtain ⟨h1, h2⟩ := GeneratePDF_currentY_le env fuel zone entries DefaultConfig 50 out hb h
  refine ⟨h1, ?_⟩
  rw [h1]
  rw [hlogo] at h2
  simp only [DefaultConfig, Bool.false_eq_true, if_false] at h2 hzone ⊢
  norm_num at h2 ⊢
  linarith

theorem GeneratePDF_fits_page_witness :
    (GeneratePDF exampleEnv 0 (go "Z") [exampleEntry, exampleEntry]
        DefaultConfig).map (fun l => (l.totalHeight, l.currentY)) = some (130, 94)
      ∧ (∀ out, GeneratePDF exampleEnv 0 (go "Z") [exampleEntry, exampleEntry]
          DefaultConfig = some out →
          out.totalHeight = (([exampleEntry, exampleEntry].length : Nat) : ℚ) * 50 + 30
            ∧ out.currentY + DefaultConfig.LineHeight ≤ out.totalHeight) := by
  refine ⟨by decide!, fun out h => ?_⟩
  exact GeneratePDF_fits_page exampleEnv 0 (go "Z") [exampleEntry, exampleEntry] out h rfl
    (by decide!) (by decide!)

/-- C10 (fails on the code): the address of two equal 32-byte words wraps, at the default
width 63, into two lines with the same text; the loop compares each line with
`addressLines[0]`, so the marker `">"` is drawn on both lines, and the second line is drawn
at `MarginLeft + 4` instead of the indented `MarginLeft + 6`. -/
theorem address_marker_drawn_on_repeated_line :
    wrapText 0 byteWidth repeatedAddress 63 = some [longWord, longWord]
      ∧ (drawAddress exampleEnv DefaultConfig 0 { exampleEntry with Address := repeatedAddress }
            { font := fontRegular8, calls := [], currentY := 18 }).map Doc.calls
          = some [Call.SetFont (go "regular") (go "") 8,
              Call.SetX 10, Call.SetY 18, Call.SetX 4, Call.Cell (go ">"), Call.SetX 8,
              Call.Cell longWord,
              Call.SetX 10, Call.SetY (41 / 2), Call.SetX 4, Call.Cell (go ">"), Call.SetX 8,
              Call.Cell longWord]
      ∧ (GeneratePDF exampleEnv 0 (go "Z") [{ exampleEntry with Address := repeatedAddress }]
            DefaultConfig).map (fun l => l.calls.count (Call.Cell (go ">"))) = some 2 := by
  refine ⟨by decide!, by decide!, by decide!⟩

/-! ## Closing lines -/

theorem drawFooter_calls (env : Env) (config : PDFConfig) (d : Doc) :
    (drawFooter env config d).calls = d.calls ++
      [Call.SetFont (go "regular") (go "") 8,
       Call.SetX ((config.PageWidth - env.MeasureTextWidth fontRegular8 env.today) / 2),
       Call.SetY (d.currentY + config.DateSpacing),
       Call.Cell env.today,
       Call.SetFont (go "bold") (go "I") 10,
       Call.SetX ((config.PageWidth - env.MeasureTextWidth fontRegular8 closingQuote) / 2),
       Call.SetY (d.currentY + config.DateSpacing + (config.LineHeight + 2)),
       Call.Cell closingQuote,
       Call.SetFont (go "bold") (go "") 14,
       Call.SetFont (go "regular") (go "") 11,
       Call.SetX ((config.PageWidth - env.MeasureTextWidth fontBoldItalic10 closingSlogan) / 2),
       Call.SetY (d.currentY + config.DateSpacing + (config.LineHeight + 2)
        + (config.LineHeight + 2)),
       Call.Cell closingSlogan] := by
  simp [drawFooter, Doc.advance, Doc.Cell, Doc.SetX, Doc.SetY, Doc.SetFont, Doc.call,
    fontRegular8, fontBoldItalic10, closingQuote, closingSlogan]
  norm_num

/-- C11 (fails on the code): the quote is measured while the font of the date (regular, 8)
is still selected and drawn after `SetFont("bold", "I", 10)`; the slogan is measured under
bold italic 10 and drawn after `SetFont("regular", "", 11)`. With a text width that grows
with the font size (one eighth of the size per byte), zone `"Z"`, no entry and the default
config, the quote is drawn at X = 11 while its rendered width 70 asks for X = 4, and the
slogan at X = 32.75 while its rendered width 13.75 asks for X = 32.125; only the date is
centred. -/
theorem closing_lines_measured_before_font_change :
    (∀ (env : Env) (config : PDFConfig) (d : Doc),
      (drawFooter env config d).calls = d.calls ++
        [Call.SetFont (go "regular") (go "") 8,
         Call.SetX ((config.PageWidth - env.MeasureTextWidth fontRegular8 env.today) / 2),
         Call.SetY (d.currentY + config.DateSpacing),
         Call.Cell env.today,
         Call.SetFont (go "bold") (go "I") 10,
         Call.SetX ((config.PageWidth - env.MeasureTextWidth fontRegular8 closingQuote) / 2),
         Call.SetY (d.currentY + config.DateSpacing + (config.LineHeight + 2)),
         Call.Cell closingQuote,
         Call.SetFont (go "bold") (go "") 14,
         Call.SetFont (go "regular") (go "") 11,
         Call.SetX
          ((config.PageWidth - env.MeasureTextWidth fontBoldItalic10 closingSlogan) / 2),
         Call.SetY (d.currentY + config.DateSpacing + (config.LineHeight + 2)
          + (config.LineHeight + 2)),
         Call.Cell closingSlogan])
    ∧ (GeneratePDF sizedEnv 0 (go "Z") [] DefaultConfig).map (fun l => l.calls)
        = some [Call.Start 78 30, Call.AddPage,
            Call.SetFont (go "regular") (go "") 10, Call.SetX 4, Call.SetY 4,
            Call.SetFont (go "bold") (go "") 12,
            Call.SetX 6, Call.SetY 4, Call.Cell (go "Z"),
            Call.SetFont (go "regular") (go "") 8,
            Call.SetX 34, Call.SetY 13, Call.Cell (go "01/11/2026"),
            Call.SetFont (go "bold") (go "I") 10,
            Call.SetX 11, Call.SetY 17, Call.Cell closingQuote,
            Call.SetFont (go "bold") (go "") 14, Call.SetFont (go "regular") (go "") 11,
            Call.SetX (131 / 4), Call.SetY 21, Call.Cell closingSlogan]
    ∧ (DefaultConfig.PageWidth - sizedEnv.MeasureTextWidth fontRegular8 (go "01/11/2026")) / 2
        = 34
    ∧ (DefaultConfig.PageWidth - sizedEnv.MeasureTextWidth fontBoldItalic10 closingQuote) / 2
        = 4
    ∧ (DefaultConfig.PageWidth - sizedEnv.MeasureTextWidth fontRegular11 closingSlogan) / 2
        = 257 / 8 := by
  exact ⟨fun env config d => drawFooter_calls env config d, by decide!, by decide!,
    by decide!, by decide!⟩

/-! ## The forward-only cursor -/

theorem lineCount_nonneg (lines : Option (List GoString)) : 0 ≤ lineCount lines := by
  cases lines with
  | none => simp [lineCount]
  | some ls => simp [lineCount]

theorem entryHeight_nonneg (env : Env) (fuel : Nat) (config : PDFConfig)
    (hc : config.NonNegative) (hbox : 0 ≤ config.NoteBoxHeight) (n i : Nat)
    (e : DeliveryEntry) : 0 ≤ entryHeight env fuel config n i e := by
  obtain ⟨h1, h2, h3, h4, h5, h6, h7, h8, h9⟩ := hc
  have ha : 0 ≤ addressLineCount env fuel config e * (config.LineHeight + 0.5) :=
    mul_nonneg (lineCount_nonneg _) (by norm_num; linarith)
  have hn : 0 ≤ noteLineCount env fuel config e * (config.LineHeight + 0.5) :=
    mul_nonneg (lineCount_nonneg _) (by norm_num; linarith)
  have hr : 0 ≤ itemRowCount e * (config.LineHeight + config.ItemSpacing) :=
    mul_nonneg (by unfold itemRowCount; exact Nat.cast_nonneg _) (by linarith)
  unfold entryHeight
  split_ifs <;> linarith

theorem drawItemRow_currentY (env : Env) (config : PDFConfig) (d : Doc)
    (row : List GoString) :
    (drawItemRow env config d row).currentY
      = d.currentY + (config.LineHeight + config.ItemSpacing) := by
  unfold drawItemRow
  show (row.enum.foldl (fun d jt => drawItem env config d jt.1 jt.2) d).currentY
    + (config.LineHeight + config.ItemSpacing) = _
  congr 1
  generalize row.enum = l
  induction l generalizing d with
  | nil => rfl
  | cons a rest ih => rw [List.foldl_cons, ih, drawItem_eq]

theorem cursorForward_of_nonneg (env : Env) (config : PDFConfig) (fuel : Nat)
    (hc : config.NonNegative) (hbox : 0 ≤ config.NoteBoxHeight) :
    CursorForward env config fuel := by
  have hc2 := hc
  obtain ⟨h1, h2, h3, h4, h5, h6, h7, h8, h9⟩ := hc2
  refine ⟨?_, ?_, ?_, ?_, ?_, ?_, ?_, ?_, ?_, ?_, ?_⟩
  · intro d line
    have := foldl_drawZoneLine_currentY config [line] d
    simp only [List.foldl_cons, List.foldl_nil, List.length_singleton, Nat.cast_one,
      one_mul] at this
    rw [this]
    linarith
  · intro e d
    rw [drawEntryHead_currentY]
    linarith
  · intro al d line
    have := foldl_drawAddressLine_currentY config al [line] d
    simp only [List.foldl_cons, List.foldl_nil, List.length_singleton, Nat.cast_one,
      one_mul] at this
    rw [this]
    norm_num
    linarith
  · intro e d out ho
    rw [drawAddress_currentY env config fuel e d out ho]
    have ha : 0 ≤ addressLineCount env fuel config e * (config.LineHeight + 0.5) :=
      mul_nonneg (lineCount_nonneg _) (by norm_num; linarith)
    linarith
  · intro d row
    rw [drawItemRow_currentY]
    linarith
  · intro e d
    rw [drawPhoneAndItems_currentY]
    have hr : 0 ≤ itemRowCount e * (config.LineHeight + config.ItemSpacing) :=
      mul_nonneg (by unfold itemRowCount; exact Nat.cast_nonneg _) (by linarith)
    linarith
  · intro d line
    have := foldl_drawNoteLine_currentY config [line] d
    simp only [List.foldl_cons, List.foldl_nil, List.length_singleton, Nat.cast_one,
      one_mul] at this
    rw [this]
    norm_num
    linarith
  · intro e d out ho
    rw [drawNotes_currentY env config fuel e d out ho]
    have hn : 0 ≤ noteLineCount env fuel config e * (config.LineHeight + 0.5) :=
      mul_nonneg (lineCount_nonneg _) (by norm_num; linarith)
    split_ifs <;> linarith
  · intro n i d
    rw [drawNoteBox_currentY]
    split_ifs <;> linarith
  · intro n i e d out ho
    rw [drawEntry_currentY env config fuel n i e d out ho]
    have := entryHeight_nonneg env fuel config hc hbox n i e
    linarith
  · intro d
    rw [drawFooter_currentY]
    linarith

/-! ## Elements drawn in Y order -/

theorem dropBottomEdges_append (k : Option Nat) (a b : List Call) :
    ∃ k2, dropBottomEdges k (a ++ b) = dropBottomEdges k a ++ dropBottomEdges k2 b := by
  induction a generalizing k with
  | nil => exact ⟨k, rfl⟩
  | cons c rest ih =>
    cases c with
    | SetLineType t =>
      obtain ⟨k2, h2⟩ := ih (if t = go "dashed" then some 0 else none)
      exact ⟨k2, by simp [dropBottomEdges, h2]⟩
    | Line x1 y1 x2 y2 =>
      rcases k with _ | j
      · obtain ⟨k2, h2⟩ := ih none
        exact ⟨k2, by simp [dropBottomEdges, h2]⟩
      · by_cases hj : j = 1
        · subst hj
          obtain ⟨k2, h2⟩ := ih (some 2)
          exact ⟨k2, by simp [dropBottomEdges, h2]⟩
        · obtain ⟨k2, h2⟩ := ih (some (j + 1))
          refine ⟨k2, ?_⟩
          simp only [List.cons_append, dropBottomEdges]
          exact congrArg _ h2
    | Start w h =>
      obtain ⟨k2, h2⟩ := ih k
      exact ⟨k2, by simp [dropBottomEdges, h2]⟩
    | AddPage =>
      obtain ⟨k2, h2⟩ := ih k
      exact ⟨k2, by simp [dropBottomEdges, h2]⟩
    | Image p x y w h =>
      obtain ⟨k2, h2⟩ := ih k
      exact ⟨k2, by simp [dropBottomEdges, h2]⟩
    | SetFont f s n =>
      obtain ⟨k2, h2⟩ := ih k
      exact ⟨k2, by simp [dropBottomEdges, h2]⟩
    | SetX x =>
      obtain ⟨k2, h2⟩ := ih k
      exact ⟨k2, by simp [dropBottomEdges, h2]⟩
    | SetY y =>
      obtain ⟨k2, h2⟩ := ih k
      exact ⟨k2, by simp [dropBottomEdges, h2]⟩
    | Cell t =>
      obtain ⟨k2, h2⟩ := ih k
      exact ⟨k2, by simp [dropBottomEdges, h2]⟩
    | SetLineWidth w =>
      obtain ⟨k2, h2⟩ := ih k
      exact ⟨k2, by simp [dropBottomEdges, h2]⟩

theorem elementYs_append (cur : Option ℚ) (a b : List Call) :
    ∃ cur2, elementYs cur (a ++ b) = elementYs cur a ++ elementYs cur2 b := by
  induction a generalizing cur with
  | nil => exact ⟨cur, rfl⟩
  | cons c rest ih =>
    cases c with
    | SetY y =>
      obtain ⟨c2, h2⟩ := ih (some y)
      exact ⟨c2, by simp [elementYs, h2]⟩
    | Cell t =>
      obtain ⟨c2, h2⟩ := ih cur
      exact ⟨c2, by simp [elementYs, h2]⟩
    | Line x1 y1 x2 y2 =>
      obtain ⟨c2, h2⟩ := ih cur
      exact ⟨c2, by simp [elementYs, h2]⟩
    | Image p x y w h =>
      obtain ⟨c2, h2⟩ := ih cur
      exact ⟨c2, by simp [elementYs, h2]⟩
    | Start w h =>
      obtain ⟨c2, h2⟩ := ih cur
      exact ⟨c2, by simp [elementYs, h2]⟩
    | AddPage =>
      obtain ⟨c2, h2⟩ := ih cur
      exact ⟨c2, by simp [elementYs, h2]⟩
    | SetFont f s n =>
      obtain ⟨c2, h2⟩ := ih cur
      exact ⟨c2, by simp [elementYs, h2]⟩
    | SetX x =>
      obtain ⟨c2, h2⟩ := ih cur
      exact ⟨c2, by simp [elementYs, h2]⟩
    | SetLineWidth w =>
      obtain ⟨c2, h2⟩ := ih cur
      exact ⟨c2, by simp [elementYs, h2]⟩
    | SetLineType t =>
      obtain ⟨c2, h2⟩ := ih cur
      exact ⟨c2, by simp [elementYs, h2]⟩

theorem Emits_nil : Emits [] [] := by
  intro k cur
  rfl

theorem Emits_append (a b : List Call) (ya yb : List ℚ) (ha : Emits a ya) (hb : Emits b yb) :
    Emits (a ++ b) (ya ++ yb) := by
  intro k cur
  obtain ⟨k2, h2⟩ := dropBottomEdges_append k a b
  obtain ⟨c2, h3⟩ := elementYs_append cur (dropBottomEdges k a) (dropBottomEdges k2 b)
  rw [h2, h3, ha k cur, hb k2 c2]

theorem Forward.refl (d : Doc) : Forward d d :=
  ⟨[], [], by simp, Emits_nil, by simp [List.Sorted], by simp, le_refl _⟩

theorem Forward.trans (d1 d2 d3 : Doc) (h12 : Forward d1 d2) (h23 : Forward d2 d3) :
    Forward d1 d3 := by
  obtain ⟨c1, y1, hc1, he1, hs1, hb1, hl1⟩ := h12
  obtain ⟨c2, y2, hc2, he2, hs2, hb2, hl2⟩ := h23
  refine ⟨c1 ++ c2, y1 ++ y2, by rw [hc2, hc1, List.append_assoc], Emits_append _ _ _ _ he1 he2,
    ?_, ?_, le_trans hl1 hl2⟩
  · unfold List.Sorted
    rw [List.pairwise_append]
    exact ⟨hs1, hs2, fun a ha b hb => le_trans (hb1 a ha).2 (hb2 b hb).1⟩
  · intro y hy
    rcases List.mem_append.mp hy with hy | hy
    · exact ⟨(hb1 y hy).1, le_trans (hb1 y hy).2 hl2⟩
    · exact ⟨le_trans hl1 (hb2 y hy).1, (hb2 y hy).2⟩

theorem Forward_advance (d : Doc) (dy : ℚ) (hdy : 0 ≤ dy) : Forward d (d.advance dy) :=
  ⟨[], [], by simp [Doc.advance], Emits_nil, by simp [List.Sorted], by simp, by
    show d.currentY ≤ d.currentY + dy
    linarith⟩

theorem Forward_SetFont (d : Doc) (f s : GoString) (n : Nat) : Forward d (d.SetFont f s n) :=
  ⟨[Call.SetFont f s n], [], rfl, by intro k cur; simp [dropBottomEdges, elementYs],
    by simp [List.Sorted], by simp, le_refl _⟩

theorem Forward_text (d : Doc) (x : ℚ) (t : GoString) :
    Forward d (((d.SetX x).SetY d.currentY).Cell t) :=
  ⟨[Call.SetX x, Call.SetY d.currentY, Call.Cell t], [d.currentY],
    by simp [Doc.SetX, Doc.SetY, Doc.Cell, Doc.call],
    by intro k cur; simp [dropBottomEdges, elementYs],
    by simp [List.Sorted], by
      intro y hy
      simp only [List.mem_singleton] at hy
      rw [hy]
      exact ⟨le_refl _, le_refl _⟩, le_refl _⟩

theorem Forward_text_pair (d : Doc) (x1 x2 : ℚ) (t1 t2 : GoString) :
    Forward d (((((d.SetX x1).SetY d.currentY).Cell t1).SetX x2).Cell t2) :=
  ⟨[Call.SetX x1, Call.SetY d.currentY, Call.Cell t1, Call.SetX x2, Call.Cell t2],
    [d.currentY, d.currentY],
    by simp [Doc.SetX, Doc.SetY, Doc.Cell, Doc.call],
    by intro k cur; simp [dropBottomEdges, elementYs],
    by simp [List.Sorted], by
      intro y hy
      simp only [List.mem_cons, List.mem_singleton, List.not_mem_nil, or_false, or_self] at hy
      rw [hy]
      exact ⟨le_refl _, le_refl _⟩, le_refl _⟩

theorem Forward_SetX (d : Doc) (x : ℚ) : Forward d (d.SetX x) :=
  ⟨[Call.SetX x], [], rfl, by intro k cur; simp [dropBottomEdges, elementYs],
    by simp [List.Sorted], by simp, le_refl _⟩

theorem Forward_marker_line (d : Doc) (x1 x2 x3 : ℚ) (t1 t2 : GoString) :
    Forward d ((((((d.SetX x1).SetY d.currentY).SetX x2).Cell t1).SetX x3).Cell t2) :=
  ⟨[Call.SetX x1, Call.SetY d.currentY, Call.SetX x2, Call.Cell t1, Call.SetX x3,
      Call.Cell t2],
    [d.currentY, d.currentY],
    by simp [Doc.SetX, Doc.SetY, Doc.Cell, Doc.call],
    by intro k cur; simp [dropBottomEdges, elementYs],
    by simp [List.Sorted], by
      intro y hy
      simp only [List.mem_cons, List.mem_singleton, List.not_mem_nil, or_false, or_self] at hy
      rw [hy]
      exact ⟨le_refl _, le_refl _⟩, le_refl _⟩

theorem Forward_foldl (step : Doc → GoString → Doc) (hstep : ∀ d line, Forward d (step d line))
    (lines : List GoString) (d : Doc) : Forward d (lines.foldl step d) := by
  induction lines generalizing d with
  | nil => exact Forward.refl d
  | cons l rest ih => exact Forward.trans _ _ _ (hstep d l) (ih _)

theorem Forward_drawZoneLine (config : PDFConfig) (hc : config.NonNegative) (d : Doc)
    (line : GoString) : Forward d (drawZoneLine config d line) := by
  unfold drawZoneLine
  have := hc.1
  exact Forward.trans _ _ _ (Forward_text d _ line) (Forward_advance _ _ (by linarith))

theorem Forward_drawAddressLine (config : PDFConfig) (hc : config.NonNegative)
    (al : List GoString) (d : Doc) (line : GoString) :
    Forward d (drawAddressLine config al d line) := by
  unfold drawAddressLine
  have := hc.1
  by_cases hl : line = al.getD 0 []
  · simp only [hl, if_true]
    exact Forward.trans _ _ _ (Forward_marker_line d _ _ _ _ _)
      (Forward_advance _ _ (by linarith))
  · simp only [hl, if_false]
    exact Forward.trans _ _ _ (Forward_text d _ line) (Forward_advance _ _ (by linarith))

theorem Forward_drawNoteLine (config : PDFConfig) (hc : config.NonNegative) (d : Doc)
    (line : GoString) : Forward d (drawNoteLine config d line) := by
  unfold drawNoteLine
  have := hc.1
  exact Forward.trans _ _ _ (Forward_text d _ line) (Forward_advance _ _ (by linarith))

theorem Forward_drawItem (env : Env) (config : PDFConfig) (d : Doc) (j : Nat)
    (item : GoString) : Forward d (drawItem env config d j item) := by
  unfold drawItem
  by_cases hp : (parseFloat env.Sscanf (TrimSpace item)).2 = true
  · simp only [hp, if_true]
    exact Forward_text d _ _
  · simp only [hp]
    exact Forward.refl d

theorem Forward_drawItemRow (env : Env) (config : PDFConfig) (hc : config.NonNegative)
    (d : Doc) (row : List GoString) : Forward d (drawItemRow env config d row) := by
  unfold drawItemRow
  have h1 := hc.1
  have h2 := hc.2.2.1
  refine Forward.trans _ _ _ ?_ (Forward_advance _ _ (by linarith))
  generalize row.enum = l
  induction l generalizing d with
  | nil => exact Forward.refl d
  | cons a rest ih => exact Forward.trans _ _ _ (Forward_drawItem env config d a.1 a.2) (ih _)

theorem Forward_drawItemRows (env : Env) (config : PDFConfig) (hc : config.NonNegative)
    (items : List GoString) (d : Doc) : Forward d (drawItemRows env config items d) := by
  induction items, d using drawItemRows.induct env config with
  | case1 d => rw [drawItemRows]; exact Forward.refl d
  | case2 a b c rest d ih =>
    rw [drawItemRows]
    exact Forward.trans _ _ _ (Forward_drawItemRow env config hc d _) ih
  | case3 a b d =>
    rw [drawItemRows]
    exact Forward_drawItemRow env config hc d _
  | case4 a d =>
    rw [drawItemRows]
    exact Forward_drawItemRow env config hc d _

theorem Forward_drawEntryHead (env : Env) (config : PDFConfig) (hc : config.NonNegative)
    (e : DeliveryEntry) (d : Doc) : Forward d (drawEntryHead env config e d) := by
  unfold drawEntryHead
  have h1 := hc.1
  have h2 := hc.2.2.2.1
  dsimp only
  refine Forward.trans _ _ _ ?_ (Forward_advance _ _ (by linarith))
  have hhead : Forward d (((((((d.SetFont (go "bold") (go "") 9).SetX config.MarginLeft).SetY
      d.currentY).Cell e.Name).SetX
        (config.PageWidth - config.MarginRight - env.MeasureTextWidth
          ((((d.SetFont (go "bold") (go "") 9).SetX config.MarginLeft).SetY
            d.currentY).Cell e.Name).font
          (FormatNumber env.Sprintf0 (CalculateTotal env.Sscanf e) ++ go " Ar"))).Cell
        (FormatNumber env.Sprintf0 (CalculateTotal env.Sscanf e) ++ go " Ar")).advance
      (config.LineHeight + 2.0)) :=
    Forward.trans _ _ _ (Forward_SetFont d _ _ _)
      (Forward.trans _ _ _ (Forward_text_pair (d.SetFont (go "bold") (go "") 9) _ _ _ _)
        (Forward_advance _ _ (by linarith)))
  by_cases hid : e.ID = []
  · simp only [hid, if_true]
    exact Forward.trans _ _ _ hhead
      (Forward.trans _ _ _ (Forward_SetFont _ (go "regular") (go "") 7) (Forward_text _ _ _))
  · simp only [hid, if_false]
    exact Forward.trans _ _ _ hhead
      (Forward.trans _ _ _ (Forward_SetFont _ (go "regular") (go "") 7) (Forward_text _ _ _))

theorem Forward_drawAddress (env : Env) (config : PDFConfig) (hc : config.NonNegative)
    (fuel : Nat) (e : DeliveryEntry) (d out : Doc)
    (ho : drawAddress env config fuel e d = some out) : Forward d out := by
  unfold drawAddress at ho
  dsimp only at ho
  split at ho
  · exact Option.noConfusion ho
  · rename_i addressLines _
    simp only [Option.some.injEq] at ho
    rw [← ho]
    exact Forward.trans _ _ _ (Forward_SetFont d _ _ _)
      (Forward.trans _ _ _
        (Forward_foldl _ (fun d2 line => Forward_drawAddressLine config hc addressLines d2 line)
          addressLines _)
        (Forward_advance _ _ hc.2.2.2.2.2.2.2.2))

theorem Forward_drawPhoneAndItems (env : Env) (config : PDFConfig) (hc : config.NonNegative)
    (e : DeliveryEntry) (d : Doc) : Forward d (drawPhoneAndItems env config e d) := by
  unfold drawPhoneAndItems
  have h1 := hc.1
  have h2 := hc.2.2.1
  have h3 := hc.2.2.2.2.2.2.1
  dsimp only
  refine Forward.trans _ _ _ ?_ (Forward_drawItemRows env config hc _ _)
  by_cases hp : e.Phone = []
  · simp only [hp, if_true]
    exact Forward.trans _ _ _ (Forward_text_pair d _ _ _ _)
      (Forward.trans _ _ _ (Forward_advance _ _ (by linarith))
        (Forward.trans _ _ _ (Forward_text _ _ _) (Forward_advance _ _ (by linarith))))
  · simp only [hp, if_false]
    exact Forward.trans _ _ _ (Forward_text_pair d _ _ _ _)
      (Forward.trans _ _ _ (Forward_advance _ _ (by linarith))
        (Forward.trans _ _ _ (Forward_text _ _ _) (Forward_advance _ _ (by linarith))))

theorem Forward_drawNotes (env : Env) (config : PDFConfig) (hc : config.NonNegative)
    (fuel : Nat) (e : DeliveryEntry) (d out : Doc)
    (ho : drawNotes env config fuel e d = some out) : Forward d out := by
  unfold drawNotes at ho
  by_cases hn : e.Notes ≠ []
  · rw [if_pos hn] at ho
    dsimp only at ho
    split at ho
    · exact Option.noConfusion ho
    · simp only [Option.some.injEq] at ho
      rw [← ho]
      exact Forward.trans _ _ _ (Forward_advance d _ hc.2.1)
        (Forward.trans _ _ _ (Forward_SetFont _ (go "bold") (go "") 8)
          (Forward.trans _ _ _ (Forward_text _ _ _)
            (Forward.trans _ _ _ (Forward_SetX _ _)
              (Forward.trans _ _ _ (Forward_SetFont _ (go "regular") (go "") 8)
                (Forward_foldl _ (fun d2 line => Forward_drawNoteLine config hc d2 line)
                  _ _)))))
  · rw [if_neg hn] at ho
    simp only [Option.some.injEq] at ho
    rw [← ho]
    exact Forward.refl d

theorem drawNoteBox_calls (config : PDFConfig) (n i : Nat) (d : Doc) :
    (drawNoteBox config n i d).calls = d.calls ++
      [Call.SetLineWidth 0.1, Call.SetLineType (go "dashed"),
        Call.Line config.MarginLeft (d.currentY + config.SectionSpacing)
          (config.PageWidth - config.MarginRight) (d.currentY + config.SectionSpacing),
        Call.Line config.MarginLeft
          (d.currentY + config.SectionSpacing + config.NoteBoxHeight)
          (config.PageWidth - config.MarginRight)
          (d.currentY + config.SectionSpacing + config.NoteBoxHeight),
        Call.Line config.MarginLeft (d.currentY + config.SectionSpacing) config.MarginLeft
          (d.currentY + config.SectionSpacing + config.NoteBoxHeight),
        Call.Line (config.PageWidth - config.MarginRight)
          (d.currentY + config.SectionSpacing) (config.PageWidth - config.MarginRight)
          (d.currentY + config.SectionSpacing + config.NoteBoxHeight),
        Call.SetFont (go "regular") (go "") 6, Call.SetFont (go "bold") (go "") 8,
        Call.SetX (config.MarginLeft + 1),
        Call.SetY (d.currentY + config.SectionSpacing + 2),
        Call.Cell (go "Watawata:"), Call.SetLineType (go "solid")]
      ++ (if (i : Int) < (n : Int) - 1 then
          [Call.SetLineWidth 0.3,
            Call.Line config.MarginLeft
              (d.currentY + config.SectionSpacing + config.NoteBoxHeight
                + config.EntrySpacing / 2)
              (config.PageWidth - config.MarginRight)
              (d.currentY + config.SectionSpacing + config.NoteBoxHeight
                + config.EntrySpacing / 2)]
        else []) := by
  unfold drawNoteBox
  by_cases hi : (i : Int) < (n : Int) - 1
  · simp [hi, Doc.advance, Doc.call, Doc.SetFont, Doc.SetX, Doc.SetY, Doc.Cell]
  · simp [hi, Doc.advance, Doc.call, Doc.SetFont, Doc.SetX, Doc.SetY, Doc.Cell]

theorem dashed_ne_solid : go "solid" ≠ go "dashed" := by decide

theorem Forward_drawNoteBox (config : PDFConfig) (hc : config.NonNegative)
    (hbox : 2 ≤ config.NoteBoxHeight) (n i : Nat) (d : Doc) :
    Forward d (drawNoteBox config n i d) := by
  have hSS := hc.2.1
  have hES := hc.2.2.2.2.1
  have hcur := drawNoteBox_currentY config n i d
  have hcalls := drawNoteBox_calls config n i d
  by_cases hi : (i : Int) < (n : Int) - 1
  · simp only [hi, if_true] at hcur hcalls
    refine ⟨_, [d.currentY + config.SectionSpacing, d.currentY + config.SectionSpacing,
        d.currentY + config.SectionSpacing, d.currentY + config.SectionSpacing + 2,
        d.currentY + config.SectionSpacing + config.NoteBoxHeight + config.EntrySpacing / 2],
      by rw [hcalls, List.append_assoc], ?_, ?_, ?_, by rw [hcur]; linarith⟩
    · intro k cur
      simp [dropBottomEdges, elementYs, dashed_ne_solid]
    · simp only [List.Sorted, List.pairwise_cons, List.mem_cons, List.mem_singleton,
        List.not_mem_nil, forall_eq_or_imp, forall_eq, IsEmpty.forall_iff, implies_true,
        List.Pairwise.nil, and_true]
      refine ⟨⟨?_, ?_, ?_, ?_⟩, ⟨?_, ?_, ?_⟩, ⟨?_, ?_⟩, ?_⟩ <;> linarith
    · intro y hy
      simp only [List.mem_cons, List.mem_singleton, List.not_mem_nil, or_false] at hy
      rw [hcur]
      rcases hy with hy | hy | hy | hy | hy <;> rw [hy] <;> constructor <;> linarith
  · simp only [hi, if_false, List.append_nil] at hcur hcalls
    refine ⟨_, [d.currentY + config.SectionSpacing, d.currentY + config.SectionSpacing,
        d.currentY + config.SectionSpacing, d.currentY + config.SectionSpacing + 2],
      hcalls, ?_, ?_, ?_, by rw [hcur]; linarith⟩
    · intro k cur
      simp [dropBottomEdges, elementYs, dashed_ne_solid]
    · simp only [List.Sorted, List.pairwise_cons, List.mem_cons, List.mem_singleton,
        List.not_mem_nil, forall_eq_or_imp, forall_eq, IsEmpty.forall_iff, implies_true,
        List.Pairwise.nil, and_true]
      refine ⟨⟨?_, ?_, ?_⟩, ⟨?_, ?_⟩, ?_⟩ <;> linarith
    · intro y hy
      simp only [List.mem_cons, List.mem_singleton, List.not_mem_nil, or_false] at hy
      rw [hcur]
      rcases hy with hy | hy | hy | hy <;> rw [hy] <;> constructor <;> linarith

theorem Forward_drawEntry (env : Env) (config : PDFConfig) (hc : config.NonNegative)
    (hbox : 2 ≤ config.NoteBoxHeight) (fuel n i : Nat) (e : DeliveryEntry) (d out : Doc)
    (ho : drawEntry env config fuel n i e d = some out) : Forward d out := by
  unfold drawEntry at ho
  cases ha : drawAddress env config fuel e (drawEntryHead env config e d) with
  | none => rw [ha] at ho; exact Option.noConfusion ho
  | some d1 =>
    rw [ha] at ho
    simp only at ho
    cases hn : drawNotes env config fuel e (drawPhoneAndItems env config e d1) with
    | none => rw [hn] at ho; exact Option.noConfusion ho
    | some d2 =>
      rw [hn] at ho
      simp only [Option.some.injEq] at ho
      rw [← ho]
      exact Forward.trans _ _ _ (Forward_drawEntryHead env config hc e d)
        (Forward.trans _ _ _ (Forward_drawAddress env config hc fuel e _ d1 ha)
          (Forward.trans _ _ _ (Forward_drawPhoneAndItems env config hc e d1)
            (Forward.trans _ _ _ (Forward_drawNotes env config hc fuel e _ d2 hn)
              (Forward_drawNoteBox config hc hbox n i d2))))

theorem Forward_drawEntries (env : Env) (config : PDFConfig) (hc : config.NonNegative)
    (hbox : 2 ≤ config.NoteBoxHeight) (fuel n : Nat) (entries : List DeliveryEntry)
    (i : Nat) (d out : Doc) (ho : drawEntries env config fuel n i entries d = some out) :
    Forward d out := by
  induction entries generalizing i d with
  | nil =>
    simp only [drawEntries, Option.some.injEq] at ho
    rw [← ho]
    exact Forward.refl d
  | cons e rest ih =>
    simp only [drawEntries] at ho
    cases he : drawEntry env config fuel n i e d with
    | none => rw [he] at ho; exact Option.noConfusion ho
    | some d1 =>
      rw [he] at ho
      exact Forward.trans _ _ _ (Forward_drawEntry env config hc hbox fuel n i e d d1 he)
        (ih (i + 1) d1 ho)

theorem Forward_drawFooter (env : Env) (config : PDFConfig) (hc : config.NonNegative)
    (d : Doc) : Forward d (drawFooter env config d) := by
  unfold drawFooter
  have h1 := hc.1
  dsimp only
  exact Forward.trans _ _ _ (Forward_advance d _ hc.2.2.2.2.2.1)
    (Forward.trans _ _ _ (Forward_SetFont _ (go "regular") (go "") 8)
      (Forward.trans _ _ _ (Forward_text _ _ _)
        (Forward.trans _ _ _ (Forward_advance _ _ (by linarith))
          (Forward.trans _ _ _ (Forward_SetFont _ (go "bold") (go "I") 10)
            (Forward.trans _ _ _ (Forward_text _ _ _)
              (Forward.trans _ _ _ (Forward_advance _ _ (by linarith))
                (Forward.trans _ _ _ (Forward_SetFont _ (go "bold") (go "") 14)
                  (Forward.trans _ _ _ (Forward_SetFont _ (go "regular") (go "") 11)
                    (Forward_text _ _ _)))))))))

theorem Forward_image (d : Doc) (p : GoString) (x w h : ℚ) :
    Forward d (d.call (Call.Image p x d.currentY w h)) :=
  ⟨[Call.Image p x d.currentY w h], [d.currentY], rfl,
    by intro k cur; simp [dropBottomEdges, elementYs],
    by simp [List.Sorted], by
      intro y hy
      simp only [List.mem_singleton] at hy
      rw [hy]
      exact ⟨le_refl _, le_refl _⟩, le_refl _⟩

theorem Forward_SetY (d : Doc) : Forward d (d.SetY d.currentY) :=
  ⟨[Call.SetY d.currentY], [], rfl, by intro k cur; simp [dropBottomEdges, elementYs],
    by simp [List.Sorted], by simp, le_refl _⟩

theorem Forward_pass (env : Env) (fuel : Nat) (zone : GoString)
    (entries : List DeliveryEntry) (config : PDFConfig) (hc : config.NonNegative)
    (hbox : 2 ≤ config.NoteBoxHeight) (total : ℚ) (d1 : Doc) (out : Layout)
    (h : (match wrapText fuel
            (env.MeasureTextWidth
              ((((d1.SetFont (go "regular") (go "") 10).SetX config.MarginLeft).SetY
                d1.currentY).SetFont (go "bold") (go "") 12).font) zone
            (config.PageWidth - config.MarginLeft - config.MarginRight - 4) with
          | none => none
          | some zoneLines =>
            match drawEntries env config fuel entries.length 0 entries
                ((zoneLines.foldl (drawZoneLine config)
                  ((((d1.SetFont (go "regular") (go "") 10).SetX config.MarginLeft).SetY
                    d1.currentY).SetFont (go "bold") (go "") 12)).advance
                  config.ZoneSpacing) with
            | none => none
            | some d =>
              some { totalHeight := total, calls := (drawFooter env config d).calls,
                     currentY := (drawFooter env config d).currentY }) = some out) :
    ∃ d2, Forward d1 d2 ∧ out.calls = d2.calls ∧ out.currentY = d2.currentY := by
  split at h
  · exact Option.noConfusion h
  · rename_i zoneLines _
    split at h
    · exact Option.noConfusion h
    · rename_i d hd
      simp only [Option.some.injEq] at h
      refine ⟨drawFooter env config d, ?_, by rw [← h], by rw [← h]⟩
      exact Forward.trans _ _ _ (Forward_SetFont d1 (go "regular") (go "") 10)
        (Forward.trans _ _ _ (Forward_SetX _ config.MarginLeft)
          (Forward.trans _ _ _ (Forward_SetY _)
            (Forward.trans _ _ _ (Forward_SetFont _ (go "bold") (go "") 12)
              (Forward.trans _ _ _
                (Forward_foldl _ (fun d2 line => Forward_drawZoneLine config hc d2 line)
                  zoneLines _)
                (Forward.trans _ _ _ (Forward_advance _ _ hc.2.2.2.2.2.2.2.1)
                  (Forward.trans _ _ _
                    (Forward_drawEntries env config hc hbox fuel entries.length entries 0 _ d
                      hd)
                    (Forward_drawFooter env config hc d)))))))

theorem Forward_GeneratePDF (env : Env) (fuel : Nat) (zone : GoString)
    (entries : List DeliveryEntry) (config : PDFConfig) (hc : config.NonNegative)
    (hbox : 2 ≤ config.NoteBoxHeight) (out : Layout)
    (h : GeneratePDF env fuel zone entries config = some out) :
    List.Sorted (· ≤ ·) (elementYs none (dropBottomEdges none out.calls))
      ∧ ∀ y ∈ elementYs none (dropBottomEdges none out.calls),
          config.MarginTop ≤ y ∧ y ≤ out.currentY := by
  unfold GeneratePDF at h
  dsimp only at h
  have key : ∃ d2, Forward
      { font := { family := [], style := [], size := 0 },
        calls := [Call.Start config.PageWidth ((entries.length : ℚ) * 50 + 30), Call.AddPage],
        currentY := config.MarginTop } d2 ∧ out.calls = d2.calls
        ∧ out.currentY = d2.currentY := by
    by_cases hl : env.logoExists = true
    · simp only [hl, if_true] at h
      obtain ⟨d2, hf, h1, h2⟩ := Forward_pass env fuel zone entries config hc hbox _ _ out h
      exact ⟨d2, Forward.trans _ _ _
        (Forward.trans _ _ _ (Forward_image _ (go "assets/logo.png")
          ((config.PageWidth - 20) / 2) 18 16) (Forward_advance _ 12 (by norm_num))) hf,
        h1, h2⟩
    · simp only [hl] at h
      exact Forward_pass env fuel zone entries config hc hbox _ _ out h
  obtain ⟨d2, ⟨calls, ys, hcalls, hem, hs, hb, hle⟩, h1, h2⟩ := key
  have hy : elementYs none (dropBottomEdges none out.calls) = ys := by
    rw [h1, hcalls]
    simp only [List.cons_append, List.nil_append, dropBottomEdges, elementYs]
    exact hem none none
  rw [hy, h2]
  exact ⟨hs, hb⟩

/-- C12 (as stated, fails on the code): with the default config, zone `"Z"` and one entry,
the bottom edge of the note box is drawn at Y = 44.5 and after it the sides at Y = 36.5 and
the label at Y = 38.5, so the Y positions of the successive elements go down; and with a
config of non-negative line height and spacing values whose note box has height 0 and whose
date spacing is 0, the label of the note box is drawn at Y = 38.5 and the date after it at
Y = 36.5, also when the bottom edge is left out. -/
theorem GeneratePDF_drawn_positions_counterexample :
    ((GeneratePDF exampleEnv 0 (go "Z") [exampleEntry] DefaultConfig).map
          (fun l => elementYs none l.calls)
        = some [4, 10, 10, 14, 18, 18, 43 / 2, 43 / 2, 51 / 2, 30, 30,
            73 / 2, 89 / 2, 73 / 2, 73 / 2, 77 / 2, 95 / 2, 103 / 2, 111 / 2]
      ∧ ¬ List.Sorted (· ≤ ·) ([4, 10, 10, 14, 18, 18, 43 / 2, 43 / 2, 51 / 2, 30, 30,
            73 / 2, 89 / 2, 73 / 2, 73 / 2, 77 / 2, 95 / 2, 103 / 2, 111 / 2] : List ℚ))
    ∧ (flatBoxConfig.NonNegative
      ∧ (GeneratePDF exampleEnv 0 (go "Z") [exampleEntry] flatBoxConfig).map
          (fun l => elementYs none (dropBottomEdges none l.calls))
        = some [4, 10, 10, 14, 18, 18, 43 / 2, 43 / 2, 51 / 2, 30, 30,
            73 / 2, 73 / 2, 73 / 2, 77 / 2, 73 / 2, 81 / 2, 89 / 2]
      ∧ ¬ List.Sorted (· ≤ ·) ([4, 10, 10, 14, 18, 18, 43 / 2, 43 / 2, 51 / 2, 30, 30,
            73 / 2, 73 / 2, 73 / 2, 77 / 2, 73 / 2, 81 / 2, 89 / 2] : List ℚ)) := by
  refine ⟨⟨by decide!, by decide!⟩, ?_, by decide!, by decide!⟩
  unfold PDFConfig.NonNegative flatBoxConfig DefaultConfig
  norm_num

/-- C12 (amended): for every zone, every list of entries and every config whose line height
and spacing values are non-negative and whose note-box height is at least 2 (in particular
the default config), no layout step lowers the cursor; each note box is drawn top edge,
bottom edge at `noteBoxY + NoteBoxHeight`, left side, right side, then its label at
`noteBoxY + 2`; and when the pass completes, the Y positions at which the successive
elements are drawn (logo, texts, top edge and sides of the note boxes, dividers), the
bottom edges of the note boxes left out, are non-decreasing from the zone heading through
every entry block to the footer and lie between the top margin and the final cursor. -/
theorem GeneratePDF_cursor_only_increases (env : Env) (fuel : Nat) (zone : GoString)
    (entries : List DeliveryEntry) (config : PDFConfig) (hc : config.NonNegative)
    (hbox : 2 ≤ config.NoteBoxHeight) :
    CursorForward env config fuel
      ∧ (∀ (n i : Nat) (d : Doc), (drawNoteBox config n i d).calls = d.calls ++
          [Call.SetLineWidth 0.1, Call.SetLineType (go "dashed"),
            Call.Line config.MarginLeft (d.currentY + config.SectionSpacing)
              (config.PageWidth - config.MarginRight) (d.currentY + config.SectionSpacing),
            Call.Line config.MarginLeft
              (d.currentY + config.SectionSpacing + config.NoteBoxHeight)
              (config.PageWidth - config.MarginRight)
              (d.currentY + config.SectionSpacing + config.NoteBoxHeight),
            Call.Line config.MarginLeft (d.currentY + config.SectionSpacing)
              config.MarginLeft (d.currentY + config.SectionSpacing + config.NoteBoxHeight),
            Call.Line (config.PageWidth - config.MarginRight)
              (d.currentY + config.SectionSpacing) (config.PageWidth - config.MarginRight)
              (d.currentY + config.SectionSpacing + config.NoteBoxHeight),
            Call.SetFont (go "regular") (go "") 6, Call.SetFont (go "bold") (go "") 8,
            Call.SetX (config.MarginLeft + 1),
            Call.SetY (d.currentY + config.SectionSpacing + 2),
            Call.Cell (go "Watawata:"), Call.SetLineType (go "solid")]
          ++ (if (i : Int) < (n : Int) - 1 then
              [Call.SetLineWidth 0.3,
                Call.Line config.MarginLeft
                  (d.currentY + config.SectionSpacing + config.NoteBoxHeight
                    + config.EntrySpacing / 2)
                  (config.PageWidth - config.MarginRight)
                  (d.currentY + config.SectionSpacing + config.NoteBoxHeight
                    + config.EntrySpacing / 2)]
            else []))
      ∧ ∀ out, GeneratePDF env fuel zone entries config = some out →
          List.Sorted (· ≤ ·) (elementYs none (dropBottomEdges none out.calls))
            ∧ ∀ y ∈ elementYs none (dropBottomEdges none out.calls),
                config.MarginTop ≤ y ∧ y ≤ out.currentY :=
  ⟨cursorForward_of_nonneg env config fuel hc (by linarith),
    fun n i d => drawNoteBox_calls config n i d,
    fun out h => Forward_GeneratePDF env fuel zone entries config hc hbox out h⟩

theorem GeneratePDF_cursor_only_increases_witness :
    DefaultConfig.NonNegative ∧ 2 ≤ DefaultConfig.NoteBoxHeight
      ∧ (GeneratePDF exampleEnv 0 (go "Z") [exampleEntry, exampleEntry] DefaultConfig).map
          (fun l => (elementYs none (dropBottomEdges none l.calls), l.currentY))
        = some ([4, 10, 10, 14, 18, 18, 43 / 2, 43 / 2, 51 / 2, 30, 30,
            73 / 2, 73 / 2, 73 / 2, 77 / 2, 93 / 2,
            97 / 2, 97 / 2, 105 / 2, 113 / 2, 113 / 2, 60, 60, 64, 137 / 2, 137 / 2,
            75, 75, 75, 77, 86, 90, 94], 94)
      ∧ CursorForward exampleEnv DefaultConfig 0
      ∧ ∀ out, GeneratePDF exampleEnv 0 (go "Z") [exampleEntry, exampleEntry]
            DefaultConfig = some out →
          List.Sorted (· ≤ ·) (elementYs none (dropBottomEdges none out.calls))
            ∧ ∀ y ∈ elementYs none (dropBottomEdges none out.calls),
                DefaultConfig.MarginTop ≤ y ∧ y ≤ out.currentY := by
  have hc : DefaultConfig.NonNegative := by
    unfold PDFConfig.NonNegative DefaultConfig
    norm_num
  have hbox : 2 ≤ DefaultConfig.NoteBoxHeight := by
    unfold DefaultConfig
    norm_num
  have h := GeneratePDF_cursor_only_increases exampleEnv 0 (go "Z")
    [exampleEntry, exampleEntry] DefaultConfig hc hbox
  exact ⟨hc, hbox, by decide!, h.1, h.2.2⟩

end Morse
